import Mathlib

set_option autoImplicit false

/-!
Shallow embedding of claudio's settings module (`src/claudio/settings.py`):
JSON values, the Python dict operations the module relies on, the
config-layer loader (`_load_json`, `_config_layers`), the Claude env
resolver (`highest_claude_env`), the claudio project merger
(`merged_claudio_config`) and the validator (`validate_projects`).

Python dicts are modelled as association lists in insertion order; every
dict produced by `json.loads` has unique keys, which is stated as a
`dnodup` hypothesis wherever a proof needs it.  Operations that can raise
in Python (`x in data` on a non-container, `.get` on a non-dict,
iteration over a non-iterable, subscripting) return `Except PyErr`.
Numbers are modelled as integers: no claim depends on non-integral
numerics.
-/

/-- JSON values as produced by `json.loads`. -/
inductive JSON where
  | null : JSON
  | bool : Bool → JSON
  | num : Int → JSON
  | str : String → JSON
  | arr : List JSON → JSON
  | obj : List (String × JSON) → JSON

/-- Python exceptions that the embedded code can raise. -/
inductive PyErr where
  | typeError : PyErr
  | attrError : PyErr
  | keyError : PyErr
  | configError : String → PyErr
deriving DecidableEq

/-- First binding of key `k` in an insertion-ordered dict (`d.get(k)` /
`d[k]` for a Python dict, which has unique keys). -/
def dget {α : Type} : List (String × α) → String → Option α
  | [], _ => none
  | p :: rest, k => if p.1 = k then some p.2 else dget rest k

/-- `k in d` for a Python dict. -/
def dhas {α : Type} : List (String × α) → String → Bool
  | [], _ => false
  | p :: rest, k => if p.1 = k then true else dhas rest k

/-- `d[k] = v` for a Python dict: replace the binding in place if the key
exists, otherwise append it. -/
def dinsert {α : Type} (d : List (String × α)) (k : String) (v : α) : List (String × α) :=
  if dhas d k then d.map (fun p => if p.1 = k then (k, v) else p)
  else d ++ [(k, v)]

/-- `{**a, **b}` for Python dicts: start from `a` and write every binding
of `b` over it, in order. -/
def dunion {α : Type} (a b : List (String × α)) : List (String × α) :=
  match b with
  | [] => a
  | p :: rest => dunion (dinsert a p.1 p.2) rest

/-- Keys of a dict, in order. -/
def dkeys {α : Type} (d : List (String × α)) : List String :=
  d.map Prod.fst

/-- Key uniqueness of a dict (holds for every dict `json.loads` yields). -/
def dnodup {α : Type} : List (String × α) → Bool
  | [] => true
  | p :: rest => !(dhas rest p.1) && dnodup rest

/-- Python truthiness of a JSON value (`if data:`). -/
def truthy : JSON → Bool
  | .null => false
  | .bool b => b
  | .num n => n != 0
  | .str s => !(s == "")
  | .arr xs => !xs.isEmpty
  | .obj kvs => !kvs.isEmpty

/-- Does the character list start with the pattern? -/
def matchesHead : List Char → List Char → Bool
  | [], _ => true
  | _ :: _, [] => false
  | p :: ps, c :: cs => p == c && matchesHead ps cs

/-- Does the character list contain the pattern as a contiguous run? -/
def containsSeq (pat : List Char) : List Char → Bool
  | [] => matchesHead pat []
  | c :: cs => matchesHead pat (c :: cs) || containsSeq pat cs

/-- Python `pat in s` for strings: substring test. -/
def pyStrIn (pat s : String) : Bool :=
  containsSeq pat.toList s.toList

/-- Python `k in data`: key test on dicts, membership on lists (a string
pattern only equals string elements), substring test on strings;
`TypeError` on any non-container. -/
def pyContains (data : JSON) (k : String) : Except PyErr Bool :=
  match data with
  | .obj kvs => .ok (dhas kvs k)
  | .arr xs => .ok (xs.any (fun j => match j with | .str s => s == k | _ => false))
  | .str s => .ok (pyStrIn k s)
  | _ => .error .typeError

/-- Python `data.get(k)` with the implicit `None` default:
`AttributeError` unless `data` is a dict. -/
def pyGet (data : JSON) (k : String) : Except PyErr JSON :=
  match data with
  | .obj kvs => .ok ((dget kvs k).getD .null)
  | _ => .error .attrError

/-- Python `data.get(k, dflt)`: `AttributeError` unless `data` is a dict. -/
def pyGetD (data : JSON) (k : String) (dflt : JSON) : Except PyErr JSON :=
  match data with
  | .obj kvs => .ok ((dget kvs k).getD dflt)
  | _ => .error .attrError

/-- Python `data[k]` for a string key: `KeyError` on a dict missing the
key, `TypeError` on lists (indices must be integers), strings and
non-containers. -/
def pySubscript (data : JSON) (k : String) : Except PyErr JSON :=
  match data with
  | .obj kvs =>
    match dget kvs k with
    | some v => .ok v
    | none => .error .keyError
  | _ => .error .typeError

/-- Python iteration `for x in v`: elements of a list, one-character
strings of a string, keys of a dict; `TypeError` otherwise. -/
def pyIter : JSON → Except PyErr (List JSON)
  | .arr xs => .ok xs
  | .str s => .ok (s.toList.map (fun c => JSON.str (String.mk [c])))
  | .obj kvs => .ok (kvs.map (fun p => JSON.str p.1))
  | _ => .error .typeError

/-- `isinstance(v, dict)`. -/
def isObj : JSON → Bool
  | .obj _ => true
  | _ => false

/-- `isinstance(v, str)`. -/
def isStr : JSON → Bool
  | .str _ => true
  | _ => false

/-- `isinstance(v, dict)`-guarded view: the entries of `v` when it is an
object, `none` otherwise. -/
def asObj : JSON → Option (List (String × JSON))
  | .obj kvs => some kvs
  | _ => none

/-! ## Loader (`_load_json`, `_config_layers`) -/

/-- Outcome of reading and parsing one file: `none` models
`FileNotFoundError`, `some none` models `json.JSONDecodeError`, and
`some (some j)` is a successful parse yielding `j` (any JSON value, not
necessarily an object). -/
abbrev FileRead := Option (Option JSON)

/-- The filesystem state one `_config_layers` call observes: whether a
git root was found, and the three candidate files (project-local,
project-shared, user-level shared). -/
structure FS where
  hasProjectDir : Bool
  localFile : FileRead
  sharedFile : FileRead
  userFile : FileRead

/-- The fixed path of each candidate config file (paths are abstracted by
their scope, each scope having one fixed filename per config family). -/
inductive ScopePath where
  | projectLocalPath : ScopePath
  | projectSharedPath : ScopePath
  | userPath : ScopePath
deriving DecidableEq

/-- `(label, path, parsed data)`, as built by `_config_layers`. -/
abbrev ConfigLayer := String × ScopePath × JSON

/-- `_load_json`: missing file or JSON decode error yields `{}`; any
successfully parsed value is returned as is. -/
def load_json : FileRead → JSON
  | none => .obj []
  | some none => .obj []
  | some (some j) => j

/-- `_config_layers`: layers ordered highest → lowest precedence;
project-scope files are skipped when no git root exists; a layer is kept
only when its parsed data is truthy. -/
def config_layers (fs : FS) : List ConfigLayer :=
  (if fs.hasProjectDir then
    (let d := load_json fs.localFile
     if truthy d then [("project-local", ScopePath.projectLocalPath, d)] else []) ++
    (let d := load_json fs.sharedFile
     if truthy d then [("project-shared", ScopePath.projectSharedPath, d)] else [])
   else []) ++
  (let d := load_json fs.userFile
   if truthy d then [("user", ScopePath.userPath, d)] else [])

/-- `claude_config_layers` (the `settings.json` family; the filename pair
is abstracted into the `FS` argument). -/
def claude_config_layers (fs : FS) : List ConfigLayer :=
  config_layers fs

/-- `claudio_config_layers` (the `claudio.settings.json` family). -/
def claudio_config_layers (fs : FS) : List ConfigLayer :=
  config_layers fs

/-! ## Environment resolver (`highest_claude_env`) -/

/-- The scan loop of `highest_claude_env`:
`if "env" in data and isinstance(data["env"], dict): return path, data["env"]`. -/
def highest_claude_env_go : List ConfigLayer → Except PyErr (Option ScopePath × List (String × JSON))
  | [] => .ok (none, [])
  | (_lab, path, data) :: rest =>
    match pyContains data "env" with
    | .error e => .error e
    | .ok false => highest_claude_env_go rest
    | .ok true =>
      match pySubscript data "env" with
      | .error e => .error e
      | .ok (.obj ekvs) => .ok (some path, ekvs)
      | .ok _ => highest_claude_env_go rest

/-- `highest_claude_env`: env dict of the highest-precedence Claude config
layer that has one, with its source path. -/
def highest_claude_env (fs : FS) : Except PyErr (Option ScopePath × List (String × JSON)) :=
  highest_claude_env_go (claude_config_layers fs)

/-! ## Merger (`merged_claudio_config`) -/

/-- Per-name accumulator `projects_by_name`: name → merged project dict. -/
abbrev NameAcc := List (String × List (String × JSON))

/-- One iteration of the accumulator loop body over a single project
entry `proj`:

    name = proj.get("name")
    if not isinstance(name, str): continue
    existing = projects_by_name.get(name, dict())
    merged_proj = union of existing and proj (proj wins per key)
    if isinstance(existing.get("env"), dict) and isinstance(proj.get("env"), dict):
        merged_proj["env"] = union of the two env dicts (proj wins per key)
    projects_by_name[name] = merged_proj
-/
def accStep (acc : NameAcc) (proj : JSON) : Except PyErr NameAcc :=
  match proj with
  | .obj pkvs =>
    match (dget pkvs "name").getD .null with
    | .str n =>
      let existing := (dget acc n).getD []
      let merged0 := dunion existing pkvs
      let merged :=
        match asObj ((dget existing "env").getD .null), asObj ((dget pkvs "env").getD .null) with
        | some e1, some e2 => dinsert merged0 "env" (.obj (dunion e1 e2))
        | _, _ => merged0
      .ok (dinsert acc n merged)
    | _ => .ok acc
  | _ => .error .attrError

/-- The accumulator loop over one layer's project entries. -/
def accEntries (acc : NameAcc) : List JSON → Except PyErr NameAcc
  | [] => .ok acc
  | p :: ps =>
    match accStep acc p with
    | .ok acc2 => accEntries acc2 ps
    | .error e => .error e

/-- One layer of the accumulator pass: `for proj in data.get("projects", [])`. -/
def accLayer (acc : NameAcc) (data : JSON) : Except PyErr NameAcc :=
  match pyGetD data "projects" (.arr []) with
  | .error e => .error e
  | .ok pv =>
    match pyIter pv with
    | .error e => .error e
    | .ok items => accEntries acc items

/-- The whole accumulator pass; called on the layer list already reversed
(lowest → highest precedence). -/
def buildAcc (acc : NameAcc) : List ConfigLayer → Except PyErr NameAcc
  | [] => .ok acc
  | l :: ls =>
    match accLayer acc l.2.2 with
    | .ok acc2 => buildAcc acc2 ls
    | .error e => .error e

/-- `next((data for _label, _path, data in layers if "projects" in data), None)`. -/
def findDefining : List ConfigLayer → Except PyErr (Option JSON)
  | [] => .ok none
  | (_lab, _path, data) :: rest =>
    match pyContains data "projects" with
    | .error e => .error e
    | .ok true => .ok (some data)
    | .ok false => findDefining rest

/-- One step of the defining-name comprehension:
`p["name"] for p ... if isinstance(p.get("name"), str)`. -/
def nameStep (ns : List String) (p : JSON) : Except PyErr (List String) :=
  match p with
  | .obj pkvs =>
    match (dget pkvs "name").getD .null with
    | .str n => .ok (ns ++ [n])
    | _ => .ok ns
  | _ => .error .attrError

/-- The defining-name comprehension over a list of entries. -/
def nameEntries (ns : List String) : List JSON → Except PyErr (List String)
  | [] => .ok ns
  | p :: ps =>
    match nameStep ns p with
    | .ok ns2 => nameEntries ns2 ps
    | .error e => .error e

/-- `defining_names = [p["name"] for p in defining_data.get("projects", [])
if isinstance(p.get("name"), str)]`. -/
def definingNames (dd : JSON) : Except PyErr (List String) :=
  match pyGetD dd "projects" (.arr []) with
  | .error e => .error e
  | .ok pv =>
    match pyIter pv with
    | .error e => .error e
    | .ok items => nameEntries [] items

/-- The body of `merged_claudio_config`, as a function of the already
discovered layers (highest → lowest precedence). -/
def mergeLayers (layers : List ConfigLayer) : Except PyErr JSON :=
  if layers.isEmpty then .ok (.obj []) else
  match findDefining layers with
  | .error e => .error e
  | .ok none => .ok (.obj [])
  | .ok (some defining_data) =>
    match buildAcc [] layers.reverse with
    | .error e => .error e
    | .ok acc =>
      match definingNames defining_data with
      | .error e => .error e
      | .ok defining_names =>
        let projects :=
          (defining_names.filter (fun n => dhas acc n)).map
            (fun n => JSON.obj ((dget acc n).getD []))
        if projects.isEmpty then .ok (.obj [])
        else .ok (.obj [("projects", .arr projects)])

/-- `merged_claudio_config`: deep-merged claudio config across all layers. -/
def merged_claudio_config (fs : FS) : Except PyErr JSON :=
  mergeLayers (claudio_config_layers fs)

/-! ## Validator (`validate_projects`) -/

/-- The env-value loop: `for k, v in env.items(): if not isinstance(v, str): raise`. -/
def validateEnvItems (i : Nat) : List (String × JSON) → Except PyErr Unit
  | [] => .ok ()
  | (k, v) :: rest =>
    if isStr v then validateEnvItems i rest
    else .error (.configError ("projects[" ++ toString i ++ "].env." ++ k ++ " must be a string"))

/-- The per-entry checks of `validate_projects` at index `i`. -/
def validateEntry (i : Nat) (proj : JSON) : Except PyErr Unit :=
  match proj with
  | .obj pkvs =>
    match (dget pkvs "name").getD .null with
    | .str n =>
      if n == "" then
        .error (.configError ("projects[" ++ toString i ++ "].name must be a non-empty string"))
      else
        match (dget pkvs "env").getD (.obj []) with
        | .obj ekvs => validateEnvItems i ekvs
        | _ => .error (.configError ("projects[" ++ toString i ++ "].env must be an object"))
    | _ => .error (.configError ("projects[" ++ toString i ++ "].name must be a non-empty string"))
  | _ => .error (.configError ("projects[" ++ toString i ++ "] must be an object"))

/-- The `for i, proj in enumerate(projects)` loop. -/
def validateEntries (i : Nat) : List JSON → Except PyErr Unit
  | [] => .ok ()
  | p :: ps =>
    match validateEntry i p with
    | .ok _ => validateEntries (i + 1) ps
    | .error e => .error e

/-- `validate_projects`: validate and return the projects list of a
claudio config (the argument is a dict in the source's type annotation,
but the embedding covers any JSON value; a non-dict raises at `.get`). -/
def validate_projects (data : JSON) : Except PyErr (List JSON) :=
  match pyGet data "projects" with
  | .error e => .error e
  | .ok projects =>
    match projects with
    | .arr ps =>
      if ps.isEmpty then .error (.configError "'projects' must be a non-empty array")
      else
        match validateEntries 0 ps with
        | .ok _ => .ok ps
        | .error e => .error e
    | _ => .error (.configError "'projects' must be a non-empty array")

/-! ## Statement-side definitions -/

/-- The string `name` of a project entry, when it has one (mirrors the
guard `isinstance(p.get("name"), str)` used by the merger). -/
def strName (p : JSON) : Option String :=
  match p with
  | .obj pkvs =>
    match (dget pkvs "name").getD .null with
    | .str n => some n
    | _ => none
  | _ => none

/-- The sequence of project names of a merged output: the `name` strings
of the entries of its `projects` array (empty for any other shape). -/
def outNames (out : JSON) : List String :=
  match out with
  | .obj kvs =>
    match dget kvs "projects" with
    | some (.arr ps) => ps.filterMap strName
    | _ => []
  | _ => []

/-- Key uniqueness of a project entry's `env` value (trivially true when
no `env` dict is present): what `json.loads` guarantees about `env`. -/
def envWF (pkvs : List (String × JSON)) : Bool :=
  match dget pkvs "env" with
  | some (.obj ekvs) => dnodup ekvs
  | _ => true

/-- What `json.loads` guarantees about a project entry: unique keys, and
a unique-keyed `env` dict when one is present (other entry shapes are
unconstrained since the merger skips or rejects them). -/
def projEntryWF (p : JSON) : Bool :=
  match p with
  | .obj pkvs => dnodup pkvs && envWF pkvs
  | _ => true

/-- What `json.loads` guarantees about a layer's raw data, to the depth
the merger inspects it: unique top-level keys and well-formed project
entries when `projects` is an array. -/
def dataWF (data : JSON) : Bool :=
  match data with
  | .obj kvs =>
    dnodup kvs &&
      (match dget kvs "projects" with
       | some (.arr ps) => ps.all projEntryWF
       | _ => true)
  | _ => true

/-- Invariant of the per-name accumulator: every stored project dict has
unique keys, carries its own key as string `name`, and its `env` value,
when an object, has unique keys. -/
def accInv (acc : NameAcc) : Prop :=
  ∀ p ∈ acc, dnodup p.2 = true ∧ dget p.2 "name" = some (JSON.str p.1) ∧ envWF p.2 = true

/-- The shapes on which the merger is exception-free: the layer's raw
data is an object, its `projects` value (when present) is an array, and
every element of that array is an object. -/
def mergeSafe (data : JSON) : Bool :=
  match data with
  | .obj kvs =>
    match dget kvs "projects" with
    | some (.arr ps) => ps.all isObj
    | some _ => false
    | none => true
  | _ => false

/-- Modelled from the claim's words, for comparison with
`highest_claude_env`: the first layer whose top-level `env` field is
present and is an object, together with its source path. -/
def firstEnvLayer : List ConfigLayer → Option (ScopePath × List (String × JSON))
  | [] => none
  | (_lab, path, data) :: rest =>
    match data with
    | .obj kvs =>
      match dget kvs "env" with
      | some (.obj ekvs) => some (path, ekvs)
      | _ => firstEnvLayer rest
    | _ => firstEnvLayer rest

/-- Modelled from the claim's words, for comparison with
`validate_projects`: an element passes when it is an object with a
non-empty string `name` whose `env`, when present, is an object with only
string values. -/
def entryOK (p : JSON) : Bool :=
  match p with
  | .obj pkvs =>
    (match dget pkvs "name" with
     | some (.str n) => !(n == "")
     | _ => false) &&
    (match dget pkvs "env" with
     | some (.obj ekvs) => ekvs.all (fun q => isStr q.2)
     | some _ => false
     | none => true)
  | _ => false

/-- Modelled from the claim's words, for comparison with
`validate_projects`: `projects` is present, an array, non-empty, and
every element passes `entryOK`. -/
def specValidConfig (data : JSON) : Bool :=
  match data with
  | .obj kvs =>
    match dget kvs "projects" with
    | some (.arr ps) => !ps.isEmpty && ps.all entryOK
    | _ => false
  | _ => false
/-! ## Dict lemmas -/

theorem dget_eq_none_of_dhas_false {α : Type} {d : List (String × α)} {k : String}
    (h : dhas d k = false) : dget d k = none := by
  induction d with
  | nil => rfl
  | cons p rest ih =>
    simp only [dhas] at h
    simp only [dget]
    by_cases hk : p.1 = k
    · simp [hk] at h
    · simp only [if_neg hk] at h ⊢
      exact ih h

theorem dhas_true_of_dget_some {α : Type} {d : List (String × α)} {k : String} {v : α}
    (h : dget d k = some v) : dhas d k = true := by
  induction d with
  | nil => simp [dget] at h
  | cons p rest ih =>
    simp only [dget] at h
    simp only [dhas]
    by_cases hk : p.1 = k
    · simp [hk]
    · simp only [if_neg hk] at h ⊢
      exact ih h

theorem dget_isSome_of_dhas {α : Type} {d : List (String × α)} {k : String}
    (h : dhas d k = true) : ∃ v, dget d k = some v := by
  induction d with
  | nil => simp [dhas] at h
  | cons p rest ih =>
    simp only [dhas] at h
    simp only [dget]
    by_cases hk : p.1 = k
    · exact ⟨p.2, by simp [hk]⟩
    · simp only [if_neg hk] at h ⊢
      exact ih h

theorem dget_append {α : Type} (a b : List (String × α)) (k : String) :
    dget (a ++ b) k = match dget a k with
      | some v => some v
      | none => dget b k := by
  induction a with
  | nil => simp [dget]
  | cons p rest ih =>
    by_cases hk : p.1 = k <;> simp [dget, hk, ih]

theorem dhas_append {α : Type} (a b : List (String × α)) (k : String) :
    dhas (a ++ b) k = (dhas a k || dhas b k) := by
  induction a with
  | nil => simp [dhas]
  | cons p rest ih =>
    by_cases hk : p.1 = k <;> simp [dhas, hk, ih]

theorem dhas_map_replace {α : Type} (d : List (String × α)) (k k' : String) (v : α) :
    dhas (d.map (fun p => if p.1 = k then (k, v) else p)) k' = dhas d k' := by
  induction d with
  | nil => simp [dhas]
  | cons p rest ih =>
    by_cases hk : p.1 = k
    · by_cases hk' : p.1 = k' <;> simp [dhas, hk, hk', hk ▸ hk', ih]
    · simp [dhas, hk, ih]

theorem dhas_dinsert {α : Type} (d : List (String × α)) (k k' : String) (v : α) :
    dhas (dinsert d k v) k' = (if k = k' then true else dhas d k') := by
  by_cases hk : k = k'
  · subst hk
    cases h : dhas d k
    · simp [dinsert, h, dhas_append, dhas]
    · simp [dinsert, h, dhas_map_replace]
  · cases h : dhas d k
    · simp only [dinsert, h, Bool.false_eq_true, if_false, dhas_append, if_neg hk]
      have : dhas [(k, v)] k' = false := by
        simp [dhas, hk]
      simp [this]
    · simp [dinsert, h, dhas_map_replace, hk]

theorem dget_map_replace_self {α : Type} (d : List (String × α)) (k : String) (v : α)
    (h : dhas d k = true) :
    dget (d.map (fun p => if p.1 = k then (k, v) else p)) k = some v := by
  induction d with
  | nil => simp [dhas] at h
  | cons p rest ih =>
    by_cases hk : p.1 = k
    · simp [dget, hk]
    · simp only [dhas, if_neg hk] at h
      simp only [List.map_cons, if_neg hk, dget]
      exact ih h

theorem dget_dinsert_self {α : Type} (d : List (String × α)) (k : String) (v : α) :
    dget (dinsert d k v) k = some v := by
  cases h : dhas d k
  · have h0 : dget d k = none := dget_eq_none_of_dhas_false h
    simp [dinsert, h, dget_append, h0, dget]
  · simp only [dinsert, h, if_true]
    exact dget_map_replace_self d k v h

theorem dget_map_replace_ne {α : Type} (d : List (String × α)) (k k' : String) (v : α)
    (hne : k ≠ k') :
    dget (d.map (fun p => if p.1 = k then (k, v) else p)) k' = dget d k' := by
  induction d with
  | nil => rfl
  | cons p rest ih =>
    by_cases hk : p.1 = k
    · simp only [List.map_cons, if_pos hk, dget, if_neg hne, if_neg (hk ▸ hne : p.1 ≠ k')]
      exact ih
    · simp only [List.map_cons, if_neg hk, dget]
      by_cases hk' : p.1 = k'
      · simp [hk']
      · simp only [if_neg hk']
        exact ih

theorem dget_dinsert_ne {α : Type} (d : List (String × α)) (k k' : String) (v : α)
    (hne : k ≠ k') : dget (dinsert d k v) k' = dget d k' := by
  cases h : dhas d k
  · simp only [dinsert, h, Bool.false_eq_true, if_false, dget_append]
    have h1 : dget [(k, v)] k' = none := by
      simp [dget, hne]
    cases hv : dget d k' <;> simp [hv, h1]
  · simp only [dinsert, h, if_true]
    exact dget_map_replace_ne d k k' v hne

theorem ne_of_dhas_false {α : Type} {d : List (String × α)} {k : String}
    (h : dhas d k = false) {q : String × α} (hq : q ∈ d) : q.1 ≠ k := by
  induction d with
  | nil => cases hq
  | cons p rest ih =>
    simp only [dhas] at h
    by_cases hk : p.1 = k
    · simp [hk] at h
    · simp only [if_neg hk] at h
      rcases List.mem_cons.mp hq with hq1 | hq1
      · exact hq1 ▸ hk
      · exact ih h hq1

theorem mem_dinsert {α : Type} {d : List (String × α)} {k : String} {v : α} {q : String × α}
    (h : q ∈ dinsert d k v) : q = (k, v) ∨ q ∈ d := by
  cases hh : dhas d k
  · simp only [dinsert, hh, Bool.false_eq_true, if_false] at h
    rcases List.mem_append.mp h with h1 | h1
    · exact Or.inr h1
    · simp only [List.mem_singleton] at h1
      exact Or.inl h1
  · simp only [dinsert, hh, if_true] at h
    rcases List.mem_map.mp h with ⟨p, hp, hq⟩
    by_cases hk : p.1 = k
    · rw [if_pos hk] at hq
      exact Or.inl hq.symm
    · rw [if_neg hk] at hq
      exact Or.inr (hq ▸ hp)

theorem dget_some_mem {α : Type} {d : List (String × α)} {k : String} {v : α}
    (h : dget d k = some v) : (k, v) ∈ d := by
  induction d with
  | nil => simp [dget] at h
  | cons p rest ih =>
    simp only [dget] at h
    by_cases hk : p.1 = k
    · rw [if_pos hk] at h
      injection h with h
      exact List.mem_cons.mpr (Or.inl (by rw [← hk, ← h]))
    · rw [if_neg hk] at h
      exact List.mem_cons.mpr (Or.inr (ih h))

theorem dget_of_mem_nodup {α : Type} {d : List (String × α)}
    (hnd : dnodup d = true) {p : String × α} (hm : p ∈ d) : dget d p.1 = some p.2 := by
  induction d with
  | nil => cases hm
  | cons q rest ih =>
    simp only [dnodup, Bool.and_eq_true, Bool.not_eq_true'] at hnd
    rcases List.mem_cons.mp hm with h1 | h1
    · subst h1
      simp [dget]
    · have hne : p.1 ≠ q.1 := ne_of_dhas_false hnd.1 h1
      have hne' : ¬ q.1 = p.1 := fun hh => hne hh.symm
      simp only [dget, if_neg hne']
      exact ih hnd.2 h1

theorem map_replace_of_dhas_false {α : Type} {d : List (String × α)} {k : String} (v : α)
    (h : dhas d k = false) :
    d.map (fun p => if p.1 = k then (k, v) else p) = d := by
  induction d with
  | nil => rfl
  | cons p rest ih =>
    simp only [dhas] at h
    by_cases hk : p.1 = k
    · simp [hk] at h
    · simp only [if_neg hk] at h
      simp only [List.map_cons, if_neg hk, ih h]

theorem map_replace_of_dget_some {α : Type} {d : List (String × α)} {k : String} {v : α}
    (hnd : dnodup d = true) (h : dget d k = some v) :
    d.map (fun p => if p.1 = k then (k, v) else p) = d := by
  induction d with
  | nil => rfl
  | cons p rest ih =>
    simp only [dnodup, Bool.and_eq_true, Bool.not_eq_true'] at hnd
    simp only [dget] at h
    by_cases hk : p.1 = k
    · rw [if_pos hk] at h
      injection h with h
      simp only [List.map_cons, if_pos hk, map_replace_of_dhas_false v (hk ▸ hnd.1)]
      rw [← hk, ← h]
    · rw [if_neg hk] at h
      simp only [List.map_cons, if_neg hk, ih hnd.2 h]

theorem dinsert_eq_self {α : Type} {d : List (String × α)} {k : String} {v : α}
    (hnd : dnodup d = true) (h : dget d k = some v) : dinsert d k v = d := by
  simp only [dinsert, dhas_true_of_dget_some h, if_true]
  exact map_replace_of_dget_some hnd h

theorem dnodup_map_replace {α : Type} {d : List (String × α)} (k : String) (v : α)
    (h : dnodup d = true) :
    dnodup (d.map (fun p => if p.1 = k then (k, v) else p)) = true := by
  induction d with
  | nil => rfl
  | cons p rest ih =>
    simp only [dnodup, Bool.and_eq_true, Bool.not_eq_true'] at h
    by_cases hk : p.1 = k
    · simp only [List.map_cons, if_pos hk, dnodup, dhas_map_replace, Bool.and_eq_true,
        Bool.not_eq_true']
      exact ⟨hk ▸ h.1, ih h.2⟩
    · simp only [List.map_cons, if_neg hk, dnodup, dhas_map_replace, Bool.and_eq_true,
        Bool.not_eq_true']
      exact ⟨h.1, ih h.2⟩

theorem dnodup_append_one {α : Type} {d : List (String × α)} {k : String} (v : α)
    (hnd : dnodup d = true) (h : dhas d k = false) : dnodup (d ++ [(k, v)]) = true := by
  induction d with
  | nil => simp [dnodup, dhas]
  | cons p rest ih =>
    simp only [dnodup, Bool.and_eq_true, Bool.not_eq_true'] at hnd
    simp only [dhas] at h
    by_cases hk : p.1 = k
    · simp [hk] at h
    · simp only [if_neg hk] at h
      have h2 : dhas [(k, v)] p.1 = false := by
        have hh : ¬ k = p.1 := fun hh => hk hh.symm
        simp [dhas, hh]
      simp only [List.cons_append, dnodup, Bool.and_eq_true, Bool.not_eq_true']
      refine ⟨?_, ih hnd.2 h⟩
      show dhas (rest ++ [(k, v)]) p.1 = false
      rw [dhas_append, hnd.1, h2]
      rfl

theorem dnodup_dinsert {α : Type} {d : List (String × α)} (k : String) (v : α)
    (h : dnodup d = true) : dnodup (dinsert d k v) = true := by
  cases hh : dhas d k
  · simp only [dinsert, hh, Bool.false_eq_true, if_false]
    exact dnodup_append_one v h hh
  · simp only [dinsert, hh, if_true]
    exact dnodup_map_replace k v h

theorem dget_dunion_of_none {α : Type} {b : List (String × α)} {k : String}
    (h : dget b k = none) (a : List (String × α)) :
    dget (dunion a b) k = dget a k := by
  induction b generalizing a with
  | nil => rfl
  | cons p rest ih =>
    simp only [dget] at h
    by_cases hk : p.1 = k
    · simp [hk] at h
    · simp only [if_neg hk] at h
      simp only [dunion]
      rw [ih h, dget_dinsert_ne _ _ _ _ hk]

theorem dget_dunion_of_some {α : Type} {b : List (String × α)} {k : String} {v : α}
    (hb : dnodup b = true) (h : dget b k = some v) (a : List (String × α)) :
    dget (dunion a b) k = some v := by
  induction b generalizing a with
  | nil => simp [dget] at h
  | cons p rest ih =>
    simp only [dnodup, Bool.and_eq_true, Bool.not_eq_true'] at hb
    simp only [dget] at h
    simp only [dunion]
    by_cases hk : p.1 = k
    · rw [if_pos hk] at h
      subst hk
      have hr : dget rest p.1 = none := dget_eq_none_of_dhas_false hb.1
      rw [dget_dunion_of_none hr, dget_dinsert_self]
      exact h
    · rw [if_neg hk] at h
      exact ih hb.2 h _

theorem dunion_eq_self {α : Type} {a b : List (String × α)} (hnd : dnodup a = true)
    (hsub : ∀ p ∈ b, dget a p.1 = some p.2) : dunion a b = a := by
  induction b with
  | nil => rfl
  | cons p rest ih =>
    simp only [dunion]
    rw [dinsert_eq_self hnd (hsub p (List.mem_cons_self _ _))]
    exact ih (fun q hq => hsub q (List.mem_cons_of_mem _ hq))

theorem dunion_self {α : Type} {a : List (String × α)} (hnd : dnodup a = true) :
    dunion a a = a :=
  dunion_eq_self hnd (fun _ hp => dget_of_mem_nodup hnd hp)

theorem dunion_eq_append {α : Type} (a b : List (String × α)) (hb : dnodup b = true)
    (hdis : ∀ p ∈ b, dhas a p.1 = false) : dunion a b = a ++ b := by
  induction b generalizing a with
  | nil => simp [dunion]
  | cons p rest ih =>
    simp only [dnodup, Bool.and_eq_true, Bool.not_eq_true'] at hb
    simp only [dunion, dinsert, hdis p (List.mem_cons_self _ _), Bool.false_eq_true, if_false]
    have hdis2 : ∀ q ∈ rest, dhas (a ++ [p]) q.1 = false := by
      intro q hq
      have h1 := ne_of_dhas_false hb.1 hq
      have h2 : ¬ p.1 = q.1 := fun hh => h1 hh.symm
      rw [dhas_append]
      have h3 : dhas [p] q.1 = false := by
        simp [dhas, h2]
      rw [hdis q (List.mem_cons_of_mem _ hq), h3]
      rfl
    have h4 := ih (a ++ [p]) hb.2 hdis2
    simp only [Prod.mk.eta]
    rw [h4]
    simp

theorem dunion_nil_left {α : Type} {b : List (String × α)} (hb : dnodup b = true) :
    dunion [] b = b := by
  have h := dunion_eq_append [] b hb (fun p _ => rfl)
  simpa using h

theorem dnodup_dunion {α : Type} {a : List (String × α)} (b : List (String × α))
    (ha : dnodup a = true) : dnodup (dunion a b) = true := by
  induction b generalizing a with
  | nil => exact ha
  | cons p rest ih =>
    simp only [dunion]
    exact ih (dnodup_dinsert p.1 p.2 ha)


/-! ## C2: loader behaviour on missing / malformed files -/

/-- C2 counterexample: a file whose contents are valid JSON but not a
JSON object (here `[1]`) is not replaced by an empty object —
`_load_json` returns it as parsed, and `_config_layers` keeps the layer
because the value is truthy. -/
theorem claim_C2_counterexample :
    load_json (some (some (JSON.arr [JSON.num 1]))) = JSON.arr [JSON.num 1] ∧
    config_layers ⟨false, none, none, some (some (JSON.arr [JSON.num 1]))⟩ =
      [("user", ScopePath.userPath, JSON.arr [JSON.num 1])] :=
  ⟨rfl, rfl⟩

/-- C2 (amended): loading a path that does not exist or whose contents
fail to decode as JSON yields an empty object and never an error; a file
holding valid JSON of any other shape is returned exactly as parsed; and
every layer `_config_layers` returns has truthy (non-empty) parsed
content. -/
theorem claim_C2_amended :
    load_json none = JSON.obj [] ∧
    load_json (some none) = JSON.obj [] ∧
    (∀ j : JSON, load_json (some (some j)) = j) ∧
    (∀ fs : FS, (config_layers fs).all (fun l => truthy l.2.2) = true) := by
  refine ⟨rfl, rfl, fun j => rfl, fun fs => ?_⟩
  unfold config_layers
  cases h0 : fs.hasProjectDir <;>
  cases h1 : truthy (load_json fs.localFile) <;>
  cases h2 : truthy (load_json fs.sharedFile) <;>
  cases h3 : truthy (load_json fs.userFile) <;>
  simp [h1, h2, h3]

/-! ## C10: the resolver does not validate env contents -/

/-- C10: the resolver returns a qualifying layer's `env` object exactly
as parsed — for every `env` dict `e`, including ones whose values are not
strings, a layer whose top-level `env` is `e` makes the scan return `e`
itself with the layer's path, without raising, filtering or converting
entries. -/
theorem claim_C10 (lab : String) (path : ScopePath) (e : List (String × JSON))
    (rest : List ConfigLayer) :
    highest_claude_env_go ((lab, path, JSON.obj [("env", JSON.obj e)]) :: rest) =
      .ok (some path, e) ∧
    highest_claude_env ⟨false, none, none, some (some (JSON.obj [("env", JSON.obj e)]))⟩ =
      .ok (some ScopePath.userPath, e) := by
  constructor
  · simp [highest_claude_env_go, pyContains, dhas, pySubscript, dget]
  · simp [highest_claude_env, claude_config_layers, config_layers, load_json, truthy,
      highest_claude_env_go, pyContains, dhas, pySubscript, dget]

/-! ## C8: the resolver picks the first layer with an object env -/

/-- C8: on layers whose raw data are objects (what the spec's data model
guarantees for every `ConfigLayer`), `highest_claude_env` returns the
top-level `env` mapping and source path of the first layer where that
field is present and is an object, and `(none, empty)` when no layer
qualifies. -/
theorem claim_C8 (fs : FS)
    (hobj : (claude_config_layers fs).all (fun l => isObj l.2.2) = true) :
    highest_claude_env fs =
      .ok (match firstEnvLayer (claude_config_layers fs) with
        | some (path, e) => (some path, e)
        | none => (none, [])) := by
  unfold highest_claude_env
  generalize claude_config_layers fs = ls at hobj ⊢
  induction ls with
  | nil => rfl
  | cons l rest ih =>
    obtain ⟨lab, path, data⟩ := l
    simp only [List.all_cons, Bool.and_eq_true] at hobj
    cases data with
    | obj kvs =>
      simp only [highest_claude_env_go, pyContains, firstEnvLayer]
      cases hh : dhas kvs "env"
      · have h0 : dget kvs "env" = none := dget_eq_none_of_dhas_false hh
        simpa [h0] using ih hobj.2
      · obtain ⟨v, hv⟩ := dget_isSome_of_dhas hh
        simp only [pySubscript, hv]
        cases v with
        | obj ekvs => simp
        | null => simpa using ih hobj.2
        | bool b => simpa using ih hobj.2
        | num n => simpa using ih hobj.2
        | str s => simpa using ih hobj.2
        | arr xs => simpa using ih hobj.2
    | null => simp [isObj] at hobj
    | bool b => simp [isObj] at hobj
    | num n => simp [isObj] at hobj
    | str s => simp [isObj] at hobj
    | arr xs => simp [isObj] at hobj

/-- C8 witness: a concrete filesystem where the user layer has an `env`
object, resolved through `claim_C8` itself. -/
theorem claim_C8_witness :
    highest_claude_env ⟨false, none, none,
        some (some (JSON.obj [("env", JSON.obj [("K", JSON.str "v")])]))⟩ =
      .ok (some ScopePath.userPath, [("K", JSON.str "v")]) := by
  have h := claim_C8 ⟨false, none, none,
      some (some (JSON.obj [("env", JSON.obj [("K", JSON.str "v")])]))⟩ (by rfl)
  simpa using h

/-! ## C7: the validator accepts exactly the structurally valid configs -/

theorem validateEnvItems_ok (i : Nat) {ekvs : List (String × JSON)}
    (h : ekvs.all (fun q => isStr q.2) = true) : validateEnvItems i ekvs = .ok () := by
  induction ekvs with
  | nil => rfl
  | cons q rest ih =>
    obtain ⟨k, v⟩ := q
    simp only [List.all_cons, Bool.and_eq_true] at h
    simp only [validateEnvItems, h.1, if_true]
    exact ih h.2

theorem validateEnvItems_error (i : Nat) {ekvs : List (String × JSON)}
    (h : ekvs.all (fun q => isStr q.2) = false) :
    ∃ msg, validateEnvItems i ekvs = .error (.configError msg) := by
  induction ekvs with
  | nil => simp at h
  | cons q rest ih =>
    obtain ⟨k, v⟩ := q
    simp only [List.all_cons] at h
    cases hq : isStr v
    · exact ⟨"projects[" ++ toString i ++ "].env." ++ k ++ " must be a string",
        by simp [validateEnvItems, hq]⟩
    · rw [hq, Bool.true_and] at h
      obtain ⟨msg, hm⟩ := ih h
      exact ⟨msg, by simp [validateEnvItems, hq, hm]⟩

theorem validateEntry_ok (i : Nat) {p : JSON} (h : entryOK p = true) :
    validateEntry i p = .ok () := by
  cases p with
  | obj pkvs =>
    simp only [entryOK, Bool.and_eq_true] at h
    obtain ⟨hname, henv⟩ := h
    cases hn : dget pkvs "name" with
    | none => rw [hn] at hname; simp at hname
    | some v =>
      rw [hn] at hname
      cases v with
      | str n =>
        have hne : (n == "") = false := by
          simpa using hname
        simp only [validateEntry, hn, Option.getD_some, hne, Bool.false_eq_true, if_false]
        cases he : dget pkvs "env" with
        | none =>
          rw [he] at henv
          simp only [he, Option.getD_none]
          rfl
        | some w =>
          rw [he] at henv
          cases w with
          | obj ekvs =>
            simp only [he, Option.getD_some]
            exact validateEnvItems_ok i henv
          | null => simp at henv
          | bool b => simp at henv
          | num m => simp at henv
          | str s => simp at henv
          | arr xs => simp at henv
      | null => simp at hname
      | bool b => simp at hname
      | num m => simp at hname
      | arr xs => simp at hname
      | obj kvs2 => simp at hname
  | null => simp [entryOK] at h
  | bool b => simp [entryOK] at h
  | num m => simp [entryOK] at h
  | str s => simp [entryOK] at h
  | arr xs => simp [entryOK] at h

theorem validateEntry_error (i : Nat) {p : JSON} (h : entryOK p = false) :
    ∃ msg, validateEntry i p = .error (.configError msg) := by
  cases p with
  | obj pkvs =>
    simp only [entryOK] at h
    cases hn : dget pkvs "name" with
    | none =>
      exact ⟨"projects[" ++ toString i ++ "].name must be a non-empty string",
        by simp [validateEntry, hn]⟩
    | some v =>
      rw [hn] at h
      cases v with
      | str n =>
        have h2 : ((!(n == "")) && (match dget pkvs "env" with
            | some (JSON.obj ekvs) => ekvs.all fun q => isStr q.2
            | some _ => false
            | none => true)) = false := h
        cases hne : n == ""
        · rw [hne] at h2
          simp only [Bool.not_false, Bool.true_and] at h2
          cases he : dget pkvs "env" with
          | none => rw [he] at h2; simp at h2
          | some w =>
            rw [he] at h2
            cases w with
            | obj ekvs =>
              obtain ⟨msg, hm⟩ := validateEnvItems_error i h2
              exact ⟨msg, by simp [validateEntry, hn, hne, he, hm]⟩
            | null =>
              exact ⟨"projects[" ++ toString i ++ "].env must be an object",
                by simp [validateEntry, hn, hne, he]⟩
            | bool b =>
              exact ⟨"projects[" ++ toString i ++ "].env must be an object",
                by simp [validateEntry, hn, hne, he]⟩
            | num m =>
              exact ⟨"projects[" ++ toString i ++ "].env must be an object",
                by simp [validateEntry, hn, hne, he]⟩
            | str s =>
              exact ⟨"projects[" ++ toString i ++ "].env must be an object",
                by simp [validateEntry, hn, hne, he]⟩
            | arr xs =>
              exact ⟨"projects[" ++ toString i ++ "].env must be an object",
                by simp [validateEntry, hn, hne, he]⟩
        · exact ⟨"projects[" ++ toString i ++ "].name must be a non-empty string",
            by
              have hne2 : n = "" := by simpa using hne
              simp [validateEntry, hn, hne2]⟩
      | null =>
        exact ⟨"projects[" ++ toString i ++ "].name must be a non-empty string",
          by simp [validateEntry, hn]⟩
      | bool b =>
        exact ⟨"projects[" ++ toString i ++ "].name must be a non-empty string",
          by simp [validateEntry, hn]⟩
      | num m =>
        exact ⟨"projects[" ++ toString i ++ "].name must be a non-empty string",
          by simp [validateEntry, hn]⟩
      | arr xs =>
        exact ⟨"projects[" ++ toString i ++ "].name must be a non-empty string",
          by simp [validateEntry, hn]⟩
      | obj kvs2 =>
        exact ⟨"projects[" ++ toString i ++ "].name must be a non-empty string",
          by simp [validateEntry, hn]⟩
  | null => exact ⟨"projects[" ++ toString i ++ "] must be an object", rfl⟩
  | bool b => exact ⟨"projects[" ++ toString i ++ "] must be an object", rfl⟩
  | num m => exact ⟨"projects[" ++ toString i ++ "] must be an object", rfl⟩
  | str s => exact ⟨"projects[" ++ toString i ++ "] must be an object", rfl⟩
  | arr xs => exact ⟨"projects[" ++ toString i ++ "] must be an object", rfl⟩

theorem validateEntries_ok {ps : List JSON} (i : Nat) (h : ps.all entryOK = true) :
    validateEntries i ps = .ok () := by
  induction ps generalizing i with
  | nil => rfl
  | cons p rest ih =>
    simp only [List.all_cons, Bool.and_eq_true] at h
    simp only [validateEntries, validateEntry_ok i h.1]
    exact ih (i + 1) h.2

theorem validateEntries_error {ps : List JSON} (i : Nat) (h : ps.all entryOK = false) :
    ∃ msg, validateEntries i ps = .error (.configError msg) := by
  induction ps generalizing i with
  | nil => simp at h
  | cons p rest ih =>
    simp only [List.all_cons] at h
    cases hp : entryOK p
    · obtain ⟨msg, hm⟩ := validateEntry_error i hp
      exact ⟨msg, by simp [validateEntries, hm]⟩
    · rw [hp, Bool.true_and] at h
      obtain ⟨msg, hm⟩ := ih (i + 1) h
      exact ⟨msg, by simp [validateEntries, validateEntry_ok i hp, hm]⟩

/-- C7: `validate_projects` fails with a `ConfigError` exactly when
`projects` is missing, not an array or empty, or some element is not an
object, lacks a non-empty string `name`, has a present non-object `env`,
or has a non-string `env` value; otherwise it returns the `projects`
array unchanged. -/
theorem claim_C7 (kvs : List (String × JSON)) :
    (specValidConfig (JSON.obj kvs) = true →
      ∃ ps, dget kvs "projects" = some (JSON.arr ps) ∧
        validate_projects (JSON.obj kvs) = .ok ps) ∧
    (specValidConfig (JSON.obj kvs) = false →
      ∃ msg, validate_projects (JSON.obj kvs) = .error (.configError msg)) := by
  constructor
  · intro h
    simp only [specValidConfig] at h
    cases hp : dget kvs "projects" with
    | none => rw [hp] at h; simp at h
    | some v =>
      rw [hp] at h
      cases v with
      | arr ps =>
        refine ⟨ps, rfl, ?_⟩
        simp only [Bool.and_eq_true, Bool.not_eq_true'] at h
        simp only [validate_projects, pyGet, hp, Option.getD_some, h.1, Bool.false_eq_true,
          if_false, validateEntries_ok 0 h.2]
      | null => simp at h
      | bool b => simp at h
      | num m => simp at h
      | str s => simp at h
      | obj kvs2 => simp at h
  · intro h
    simp only [specValidConfig] at h
    cases hp : dget kvs "projects" with
    | none =>
      exact ⟨"'projects' must be a non-empty array",
        by simp [validate_projects, pyGet, hp]⟩
    | some v =>
      rw [hp] at h
      cases v with
      | arr ps =>
        have h2 : (!ps.isEmpty && ps.all entryOK) = false := h
        cases he : ps.isEmpty
        · rw [he] at h2
          simp only [Bool.not_false, Bool.true_and] at h2
          obtain ⟨msg, hm⟩ := validateEntries_error 0 h2
          exact ⟨msg, by simp [validate_projects, pyGet, hp, he, hm]⟩
        · exact ⟨"'projects' must be a non-empty array",
            by simp [validate_projects, pyGet, hp, he]⟩
      | null => exact ⟨"'projects' must be a non-empty array",
          by simp [validate_projects, pyGet, hp]⟩
      | bool b => exact ⟨"'projects' must be a non-empty array",
          by simp [validate_projects, pyGet, hp]⟩
      | num m => exact ⟨"'projects' must be a non-empty array",
          by simp [validate_projects, pyGet, hp]⟩
      | str s => exact ⟨"'projects' must be a non-empty array",
          by simp [validate_projects, pyGet, hp]⟩
      | obj kvs2 => exact ⟨"'projects' must be a non-empty array",
          by simp [validate_projects, pyGet, hp]⟩

/-- C7 witness: a valid one-project config is returned unchanged, and the
empty `projects` array is rejected, both through `claim_C7` itself. -/
theorem claim_C7_witness :
    (∃ ps, dget [("projects", JSON.arr [JSON.obj [("name", JSON.str "a")]])] "projects" =
        some (JSON.arr ps) ∧
      validate_projects (JSON.obj [("projects", JSON.arr [JSON.obj [("name", JSON.str "a")]])]) =
        .ok ps) ∧
    (∃ msg, validate_projects (JSON.obj [("projects", JSON.arr [])]) =
      .error (.configError msg)) :=
  ⟨(claim_C7 [("projects", JSON.arr [JSON.obj [("name", JSON.str "a")]])]).1 rfl,
   (claim_C7 [("projects", JSON.arr [])]).2 rfl⟩

/-! ## C1, C3, C4 counterexamples -/

/-- C1 counterexample: with a single layer whose defining `projects` list
names "a" twice, the merged output lists the project twice, so the
output's `name` values are not unique. -/
theorem claim_C1_counterexample :
    merged_claudio_config ⟨false, none, none,
        some (some (JSON.obj [("projects",
          JSON.arr [JSON.obj [("name", JSON.str "a")], JSON.obj [("name", JSON.str "a")]])]))⟩ =
      .ok (JSON.obj [("projects",
        JSON.arr [JSON.obj [("name", JSON.str "a")], JSON.obj [("name", JSON.str "a")]])]) ∧
    ¬ (outNames (JSON.obj [("projects",
        JSON.arr [JSON.obj [("name", JSON.str "a")], JSON.obj [("name", JSON.str "a")]])])).Nodup :=
  ⟨rfl, by decide⟩

/-- C3 counterexample: a layer whose `projects` value is the string "x"
passes the defining-layer test but makes the merger raise an
`AttributeError` while iterating it (a one-character string has no
`.get`), so the merger does raise on malformed input. -/
theorem claim_C3_counterexample :
    merged_claudio_config ⟨false, none, none,
        some (some (JSON.obj [("projects", JSON.str "x")]))⟩ = .error .attrError :=
  rfl

/-- C4 counterexample: an entry whose `name` is the empty string is not
skipped — it is accumulated and emitted, and the output's name sequence
is exactly the empty string. -/
theorem claim_C4_counterexample :
    merged_claudio_config ⟨false, none, none,
        some (some (JSON.obj [("projects", JSON.arr [JSON.obj [("name", JSON.str "")]])]))⟩ =
      .ok (JSON.obj [("projects", JSON.arr [JSON.obj [("name", JSON.str "")]])]) ∧
    outNames (JSON.obj [("projects", JSON.arr [JSON.obj [("name", JSON.str "")]])]) = [""] :=
  ⟨rfl, rfl⟩

/-! ## C4 (amended): only non-string names are skipped -/

/-- C4 (amended): during merging an entry whose `name` is not a string is
skipped — it leaves the accumulator unchanged and contributes no defining
name — but an entry whose `name` is any string, the empty string
included, is processed: it is written to the accumulator under that name
and its name joins the defining sequence. -/
theorem claim_C4_amended (acc : NameAcc) (pkvs : List (String × JSON)) (ns : List String) :
    (isStr ((dget pkvs "name").getD .null) = false →
      accStep acc (JSON.obj pkvs) = .ok acc ∧
      nameStep ns (JSON.obj pkvs) = .ok ns) ∧
    (∀ s, (dget pkvs "name").getD .null = JSON.str s →
      (∃ m, accStep acc (JSON.obj pkvs) = .ok (dinsert acc s m) ∧
        dhas (dinsert acc s m) s = true) ∧
      nameStep ns (JSON.obj pkvs) = .ok (ns ++ [s])) := by
  constructor
  · intro h
    constructor
    · cases hn : (dget pkvs "name").getD .null with
      | str n => rw [hn] at h; simp [isStr] at h
      | null => simp [accStep, hn]
      | bool b => simp [accStep, hn]
      | num m => simp [accStep, hn]
      | arr xs => simp [accStep, hn]
      | obj kvs2 => simp [accStep, hn]
    · cases hn : (dget pkvs "name").getD .null with
      | str n => rw [hn] at h; simp [isStr] at h
      | null => simp [nameStep, hn]
      | bool b => simp [nameStep, hn]
      | num m => simp [nameStep, hn]
      | arr xs => simp [nameStep, hn]
      | obj kvs2 => simp [nameStep, hn]
  · intro s hs
    constructor
    · refine ⟨(match asObj ((dget ((dget acc s).getD []) "env").getD JSON.null),
            asObj ((dget pkvs "env").getD JSON.null) with
          | some e1, some e2 =>
            dinsert (dunion ((dget acc s).getD []) pkvs) "env" (JSON.obj (dunion e1 e2))
          | _, _ => dunion ((dget acc s).getD []) pkvs), by simp [accStep, hs], ?_⟩
      rw [dhas_dinsert]
      simp
    · simp [nameStep, hs]

/-- C4 witness: `claim_C4_amended` applied to a number-named entry (it is
skipped) and to an empty-string-named entry (it is accumulated). -/
theorem claim_C4_witness :
    (accStep [] (JSON.obj [("name", JSON.num 3)]) = .ok [] ∧
      nameStep [] (JSON.obj [("name", JSON.num 3)]) = .ok []) ∧
    ((∃ m, accStep [] (JSON.obj [("name", JSON.str "")]) = .ok (dinsert [] "" m) ∧
        dhas (dinsert ([] : NameAcc) "" m) "" = true) ∧
      nameStep [] (JSON.obj [("name", JSON.str "")]) = .ok ([] ++ [""])) :=
  ⟨(claim_C4_amended [] [("name", JSON.num 3)] []).1 rfl,
   (claim_C4_amended [] [("name", JSON.str "")] []).2 "" rfl⟩

/-! ## C5: env deep-merge with higher precedence winning per key -/

/-- C5: when the accumulated entry and the entry being processed share a
name and both carry `env` dicts, the merged entry's `env` is their
key-by-key union, the later (higher-precedence) entry winning on every
conflicting key; and on the spec's concrete example the user env
`KEY=user` and the project-local env `OTHER=local` merge to exactly
`KEY=user, OTHER=local`. -/
theorem claim_C5 (acc : NameAcc) (pkvs existing e1 e2 : List (String × JSON)) (n : String)
    (hacc : dget acc n = some existing)
    (hname : dget pkvs "name" = some (JSON.str n))
    (he1 : dget existing "env" = some (JSON.obj e1))
    (he2 : dget pkvs "env" = some (JSON.obj e2))
    (hnd2 : dnodup e2 = true) :
    (∃ m, accStep acc (JSON.obj pkvs) = .ok (dinsert acc n m) ∧
      dget m "env" = some (JSON.obj (dunion e1 e2)) ∧
      (∀ k, (∀ v2, dget e2 k = some v2 → dget (dunion e1 e2) k = some v2) ∧
            (dget e2 k = none → dget (dunion e1 e2) k = dget e1 k))) ∧
    merged_claudio_config ⟨true,
        some (some (JSON.obj [("projects", JSON.arr [JSON.obj [("name", JSON.str "a"),
          ("env", JSON.obj [("OTHER", JSON.str "local")])]])])),
        none,
        some (some (JSON.obj [("projects", JSON.arr [JSON.obj [("name", JSON.str "a"),
          ("env", JSON.obj [("KEY", JSON.str "user")])]])]))⟩ =
      .ok (JSON.obj [("projects", JSON.arr [JSON.obj [("name", JSON.str "a"),
        ("env", JSON.obj [("KEY", JSON.str "user"), ("OTHER", JSON.str "local")])]])]) := by
  constructor
  · refine ⟨dinsert (dunion existing pkvs) "env" (JSON.obj (dunion e1 e2)), ?_, ?_, ?_⟩
    · simp [accStep, asObj, hname, hacc, he1, he2]
    · exact dget_dinsert_self _ _ _
    · intro k
      exact ⟨fun v2 hv2 => dget_dunion_of_some hnd2 hv2 e1,
             fun hn2 => dget_dunion_of_none hn2 e1⟩
  · rfl

/-- C5 witness: `claim_C5` applied to the spec's concrete example pair of
layers. -/
theorem claim_C5_witness :
    (∃ m, accStep [("a", [("name", JSON.str "a"), ("env", JSON.obj [("KEY", JSON.str "user")])])]
        (JSON.obj [("name", JSON.str "a"), ("env", JSON.obj [("OTHER", JSON.str "local")])]) =
      .ok (dinsert [("a", [("name", JSON.str "a"), ("env", JSON.obj [("KEY", JSON.str "user")])])]
        "a" m) ∧
      dget m "env" =
        some (JSON.obj (dunion [("KEY", JSON.str "user")] [("OTHER", JSON.str "local")])) ∧
      (∀ k, (∀ v2, dget [("OTHER", JSON.str "local")] k = some v2 →
          dget (dunion [("KEY", JSON.str "user")] [("OTHER", JSON.str "local")]) k = some v2) ∧
        (dget [("OTHER", JSON.str "local")] k = none →
          dget (dunion [("KEY", JSON.str "user")] [("OTHER", JSON.str "local")]) k =
            dget [("KEY", JSON.str "user")] k))) ∧
    merged_claudio_config ⟨true,
        some (some (JSON.obj [("projects", JSON.arr [JSON.obj [("name", JSON.str "a"),
          ("env", JSON.obj [("OTHER", JSON.str "local")])]])])),
        none,
        some (some (JSON.obj [("projects", JSON.arr [JSON.obj [("name", JSON.str "a"),
          ("env", JSON.obj [("KEY", JSON.str "user")])]])]))⟩ =
      .ok (JSON.obj [("projects", JSON.arr [JSON.obj [("name", JSON.str "a"),
        ("env", JSON.obj [("KEY", JSON.str "user"), ("OTHER", JSON.str "local")])]])]) :=
  claim_C5 [("a", [("name", JSON.str "a"), ("env", JSON.obj [("KEY", JSON.str "user")])])]
    [("name", JSON.str "a"), ("env", JSON.obj [("OTHER", JSON.str "local")])]
    [("name", JSON.str "a"), ("env", JSON.obj [("KEY", JSON.str "user")])]
    [("KEY", JSON.str "user")] [("OTHER", JSON.str "local")] "a" rfl rfl rfl rfl rfl

/-! ## C3 (amended): the merger is exception-free on well-shaped layers -/

theorem isObj_of_mergeSafe {d : JSON} (h : mergeSafe d = true) : isObj d = true := by
  cases d <;> simp_all [mergeSafe, isObj]

theorem findDefining_ok (layers : List ConfigLayer)
    (h : ∀ l ∈ layers, isObj l.2.2 = true) : ∃ r, findDefining layers = .ok r := by
  induction layers with
  | nil => exact ⟨none, rfl⟩
  | cons l rest ih =>
    obtain ⟨lab, path, data⟩ := l
    have h1 : isObj data = true := h _ (List.mem_cons_self _ _)
    cases data with
    | obj kvs =>
      cases hh : dhas kvs "projects"
      · obtain ⟨r, hr⟩ := ih (fun q hq => h q (List.mem_cons_of_mem _ hq))
        exact ⟨r, by simp [findDefining, pyContains, hh, hr]⟩
      · exact ⟨some (JSON.obj kvs), by simp [findDefining, pyContains, hh]⟩
    | null => simp [isObj] at h1
    | bool b => simp [isObj] at h1
    | num n => simp [isObj] at h1
    | str s => simp [isObj] at h1
    | arr xs => simp [isObj] at h1

theorem findDefining_some_mem {layers : List ConfigLayer} {dd : JSON}
    (h : findDefining layers = .ok (some dd)) :
    ∃ lab path, (lab, path, dd) ∈ layers := by
  induction layers with
  | nil => simp [findDefining] at h
  | cons l rest ih =>
    obtain ⟨lab, path, data⟩ := l
    simp only [findDefining] at h
    cases hc : pyContains data "projects" with
    | error e => rw [hc] at h; cases h
    | ok b =>
      rw [hc] at h
      cases b
      · obtain ⟨lab2, path2, hm⟩ := ih h
        exact ⟨lab2, path2, List.mem_cons_of_mem _ hm⟩
      · injection h with h2
        injection h2 with h3
        exact ⟨lab, path, h3 ▸ List.mem_cons_self _ _⟩

theorem accStep_obj_ok (acc : NameAcc) (pkvs : List (String × JSON)) :
    ∃ acc2, accStep acc (JSON.obj pkvs) = .ok acc2 := by
  cases hn : (dget pkvs "name").getD .null with
  | str n =>
    exact ⟨dinsert acc n (match asObj ((dget ((dget acc n).getD []) "env").getD JSON.null),
        asObj ((dget pkvs "env").getD JSON.null) with
      | some e1, some e2 =>
        dinsert (dunion ((dget acc n).getD []) pkvs) "env" (JSON.obj (dunion e1 e2))
      | _, _ => dunion ((dget acc n).getD []) pkvs), by simp [accStep, hn]⟩
  | null => exact ⟨acc, by simp [accStep, hn]⟩
  | bool b => exact ⟨acc, by simp [accStep, hn]⟩
  | num m => exact ⟨acc, by simp [accStep, hn]⟩
  | arr xs => exact ⟨acc, by simp [accStep, hn]⟩
  | obj kvs2 => exact ⟨acc, by simp [accStep, hn]⟩

theorem accEntries_ok (acc : NameAcc) (items : List JSON)
    (h : ∀ p ∈ items, isObj p = true) : ∃ acc2, accEntries acc items = .ok acc2 := by
  induction items generalizing acc with
  | nil => exact ⟨acc, rfl⟩
  | cons p ps ih =>
    have h1 : isObj p = true := h _ (List.mem_cons_self _ _)
    cases p with
    | obj pkvs =>
      obtain ⟨acc2, h2⟩ := accStep_obj_ok acc pkvs
      obtain ⟨acc3, h3⟩ := ih acc2 (fun q hq => h q (List.mem_cons_of_mem _ hq))
      exact ⟨acc3, by simp [accEntries, h2, h3]⟩
    | null => simp [isObj] at h1
    | bool b => simp [isObj] at h1
    | num n => simp [isObj] at h1
    | str s => simp [isObj] at h1
    | arr xs => simp [isObj] at h1

theorem accLayer_ok (acc : NameAcc) (data : JSON) (h : mergeSafe data = true) :
    ∃ acc2, accLayer acc data = .ok acc2 := by
  cases data with
  | obj kvs =>
    simp only [mergeSafe] at h
    cases hp : dget kvs "projects" with
    | none => exact ⟨acc, by simp [accLayer, pyGetD, hp, pyIter, accEntries]⟩
    | some v =>
      rw [hp] at h
      cases v with
      | arr ps =>
        obtain ⟨acc2, h2⟩ := accEntries_ok acc ps (by
          intro p hp2
          exact List.all_eq_true.mp h p hp2)
        exact ⟨acc2, by simp [accLayer, pyGetD, hp, pyIter, h2]⟩
      | null => simp at h
      | bool b => simp at h
      | num n => simp at h
      | str s => simp at h
      | obj kvs2 => simp at h
  | null => simp [mergeSafe] at h
  | bool b => simp [mergeSafe] at h
  | num n => simp [mergeSafe] at h
  | str s => simp [mergeSafe] at h
  | arr xs => simp [mergeSafe] at h

theorem buildAcc_ok (acc : NameAcc) (layers : List ConfigLayer)
    (h : ∀ l ∈ layers, mergeSafe l.2.2 = true) : ∃ acc2, buildAcc acc layers = .ok acc2 := by
  induction layers generalizing acc with
  | nil => exact ⟨acc, rfl⟩
  | cons l ls ih =>
    obtain ⟨acc2, h2⟩ := accLayer_ok acc l.2.2 (h _ (List.mem_cons_self _ _))
    obtain ⟨acc3, h3⟩ := ih acc2 (fun q hq => h q (List.mem_cons_of_mem _ hq))
    exact ⟨acc3, by simp [buildAcc, h2, h3]⟩

theorem nameStep_obj_ok (ns : List String) (pkvs : List (String × JSON)) :
    ∃ ns2, nameStep ns (JSON.obj pkvs) = .ok ns2 := by
  cases hn : (dget pkvs "name").getD .null with
  | str n => exact ⟨ns ++ [n], by simp [nameStep, hn]⟩
  | null => exact ⟨ns, by simp [nameStep, hn]⟩
  | bool b => exact ⟨ns, by simp [nameStep, hn]⟩
  | num m => exact ⟨ns, by simp [nameStep, hn]⟩
  | arr xs => exact ⟨ns, by simp [nameStep, hn]⟩
  | obj kvs2 => exact ⟨ns, by simp [nameStep, hn]⟩

theorem nameEntries_ok (ns : List String) (items : List JSON)
    (h : ∀ p ∈ items, isObj p = true) : ∃ ns2, nameEntries ns items = .ok ns2 := by
  induction items generalizing ns with
  | nil => exact ⟨ns, rfl⟩
  | cons p ps ih =>
    have h1 : isObj p = true := h _ (List.mem_cons_self _ _)
    cases p with
    | obj pkvs =>
      obtain ⟨ns2, h2⟩ := nameStep_obj_ok ns pkvs
      obtain ⟨ns3, h3⟩ := ih ns2 (fun q hq => h q (List.mem_cons_of_mem _ hq))
      exact ⟨ns3, by simp [nameEntries, h2, h3]⟩
    | null => simp [isObj] at h1
    | bool b => simp [isObj] at h1
    | num n => simp [isObj] at h1
    | str s => simp [isObj] at h1
    | arr xs => simp [isObj] at h1

theorem definingNames_ok (dd : JSON) (h : mergeSafe dd = true) :
    ∃ ns, definingNames dd = .ok ns := by
  cases dd with
  | obj kvs =>
    simp only [mergeSafe] at h
    cases hp : dget kvs "projects" with
    | none => exact ⟨[], by simp [definingNames, pyGetD, hp, pyIter, nameEntries]⟩
    | some v =>
      rw [hp] at h
      cases v with
      | arr ps =>
        obtain ⟨ns, h2⟩ := nameEntries_ok [] ps (by
          intro p hp2
          exact List.all_eq_true.mp h p hp2)
        exact ⟨ns, by simp [definingNames, pyGetD, hp, pyIter, h2]⟩
      | null => simp at h
      | bool b => simp at h
      | num n => simp at h
      | str s => simp at h
      | obj kvs2 => simp at h
  | null => simp [mergeSafe] at h
  | bool b => simp [mergeSafe] at h
  | num n => simp [mergeSafe] at h
  | str s => simp [mergeSafe] at h
  | arr xs => simp [mergeSafe] at h

/-- C3 (amended): the loader is total by construction, and the merger
never raises provided every layer's raw data is an object whose
`projects` value, when present, is an array of objects; on layers outside
that shape the merger can raise (see the counterexample), so only there
does the claim fail. -/
theorem claim_C3_amended (layers : List ConfigLayer)
    (h : layers.all (fun l => mergeSafe l.2.2) = true) :
    ∃ out, mergeLayers layers = .ok out := by
  have hm : ∀ l ∈ layers, mergeSafe l.2.2 = true := List.all_eq_true.mp h
  by_cases hE : layers.isEmpty
  · exact ⟨JSON.obj [], by simp [mergeLayers, hE]⟩
  · obtain ⟨r, hr⟩ := findDefining_ok layers (fun l hl => isObj_of_mergeSafe (hm l hl))
    cases r with
    | none => exact ⟨JSON.obj [], by simp [mergeLayers, hE, hr]⟩
    | some dd =>
      obtain ⟨acc, hacc⟩ := buildAcc_ok [] layers.reverse
        (fun l hl => hm l (List.mem_reverse.mp hl))
      obtain ⟨lab, path, hmem⟩ := findDefining_some_mem hr
      obtain ⟨ns, hns⟩ := definingNames_ok dd (hm _ hmem)
      cases hP : ((ns.filter (fun n => dhas acc n)).map
          (fun n => JSON.obj ((dget acc n).getD []))).isEmpty
      · exact ⟨JSON.obj [("projects", JSON.arr ((ns.filter (fun n => dhas acc n)).map
            (fun n => JSON.obj ((dget acc n).getD []))))],
          by simp [mergeLayers, hE, hr, hacc, hns, hP]⟩
      · exact ⟨JSON.obj [], by simp [mergeLayers, hE, hr, hacc, hns, hP]⟩

/-- C3 witness: `claim_C3_amended` applied to a well-shaped two-layer
stack. -/
theorem claim_C3_witness :
    ∃ out, mergeLayers
      [("project-local", ScopePath.projectLocalPath,
        JSON.obj [("projects", JSON.arr [JSON.obj [("name", JSON.str "a")]])]),
       ("user", ScopePath.userPath,
        JSON.obj [("projects", JSON.arr [JSON.obj [("name", JSON.str "b")]])])] = .ok out :=
  claim_C3_amended _ rfl

/-! ## C9: defining names are always in the accumulator -/

theorem accStep_dhas_mono {acc acc2 : NameAcc} {p : JSON} {k : String}
    (h : accStep acc p = .ok acc2) (hk : dhas acc k = true) : dhas acc2 k = true := by
  cases p with
  | obj pkvs =>
    cases hn : (dget pkvs "name").getD .null with
    | str n =>
      simp only [accStep, hn] at h
      injection h with h2
      rw [← h2, dhas_dinsert]
      by_cases hnk : n = k <;> simp [hnk, hk]
    | null => simp only [accStep, hn] at h; injection h with h2; exact h2 ▸ hk
    | bool b => simp only [accStep, hn] at h; injection h with h2; exact h2 ▸ hk
    | num m => simp only [accStep, hn] at h; injection h with h2; exact h2 ▸ hk
    | arr xs => simp only [accStep, hn] at h; injection h with h2; exact h2 ▸ hk
    | obj kvs2 => simp only [accStep, hn] at h; injection h with h2; exact h2 ▸ hk
  | null => cases h
  | bool b => cases h
  | num n => cases h
  | str s => cases h
  | arr xs => cases h

theorem accEntries_dhas_mono {items : List JSON} {acc acc2 : NameAcc} {k : String}
    (h : accEntries acc items = .ok acc2) (hk : dhas acc k = true) : dhas acc2 k = true := by
  induction items generalizing acc with
  | nil =>
    simp only [accEntries] at h
    injection h with h2
    exact h2 ▸ hk
  | cons p ps ih =>
    simp only [accEntries] at h
    cases hs : accStep acc p with
    | error e => rw [hs] at h; cases h
    | ok acc1 =>
      rw [hs] at h
      exact ih h (accStep_dhas_mono hs hk)

theorem accLayer_dhas_mono {data : JSON} {acc acc2 : NameAcc} {k : String}
    (h : accLayer acc data = .ok acc2) (hk : dhas acc k = true) : dhas acc2 k = true := by
  simp only [accLayer] at h
  cases hg : pyGetD data "projects" (.arr []) with
  | error e => simp only [hg] at h; cases h
  | ok pv =>
    simp only [hg] at h
    cases hi : pyIter pv with
    | error e => simp only [hi] at h; cases h
    | ok items =>
      simp only [hi] at h
      exact accEntries_dhas_mono h hk

theorem buildAcc_dhas_mono {layers : List ConfigLayer} {acc acc2 : NameAcc} {k : String}
    (h : buildAcc acc layers = .ok acc2) (hk : dhas acc k = true) : dhas acc2 k = true := by
  induction layers generalizing acc with
  | nil =>
    simp only [buildAcc] at h
    injection h with h2
    exact h2 ▸ hk
  | cons l ls ih =>
    simp only [buildAcc] at h
    cases hs : accLayer acc l.2.2 with
    | error e => rw [hs] at h; cases h
    | ok acc1 =>
      rw [hs] at h
      exact ih h (accLayer_dhas_mono hs hk)

theorem accEntries_names {items : List JSON} {acc acc2 : NameAcc} {ns ns2 : List String}
    (ha : accEntries acc items = .ok acc2) (hn : nameEntries ns items = .ok ns2) :
    ∀ n ∈ ns2, n ∈ ns ∨ dhas acc2 n = true := by
  induction items generalizing acc ns with
  | nil =>
    simp only [accEntries] at ha
    simp only [nameEntries] at hn
    injection ha with ha2
    injection hn with hn2
    subst ha2
    subst hn2
    exact fun n hm => Or.inl hm
  | cons p ps ih =>
    simp only [accEntries] at ha
    simp only [nameEntries] at hn
    cases p with
    | obj pkvs =>
      cases hname : (dget pkvs "name").getD .null with
      | str s =>
        simp only [accStep, hname] at ha
        simp only [nameStep, hname] at hn
        intro n hm
        rcases ih ha hn n hm with h1 | h1
        · rcases List.mem_append.mp h1 with h2 | h2
          · exact Or.inl h2
          · simp only [List.mem_singleton] at h2
            subst h2
            refine Or.inr (accEntries_dhas_mono ha ?_)
            rw [dhas_dinsert]
            simp
        · exact Or.inr h1
      | null =>
        simp only [accStep, hname] at ha
        simp only [nameStep, hname] at hn
        exact ih ha hn
      | bool b =>
        simp only [accStep, hname] at ha
        simp only [nameStep, hname] at hn
        exact ih ha hn
      | num m =>
        simp only [accStep, hname] at ha
        simp only [nameStep, hname] at hn
        exact ih ha hn
      | arr xs =>
        simp only [accStep, hname] at ha
        simp only [nameStep, hname] at hn
        exact ih ha hn
      | obj kvs2 =>
        simp only [accStep, hname] at ha
        simp only [nameStep, hname] at hn
        exact ih ha hn
    | null => simp only [accStep] at ha; cases ha
    | bool b => simp only [accStep] at ha; cases ha
    | num m => simp only [accStep] at ha; cases ha
    | str s => simp only [accStep] at ha; cases ha
    | arr xs => simp only [accStep] at ha; cases ha

theorem buildAcc_append (acc : NameAcc) (xs ys : List ConfigLayer) :
    buildAcc acc (xs ++ ys) = (match buildAcc acc xs with
      | .ok a2 => buildAcc a2 ys
      | .error e => .error e) := by
  induction xs generalizing acc with
  | nil => simp [buildAcc]
  | cons l ls ih =>
    simp only [List.cons_append, buildAcc]
    cases hs : accLayer acc l.2.2 with
    | error e => rfl
    | ok acc1 => exact ih acc1

/-- Processing the defining layer itself puts every one of its string
names into the accumulator, and later layers never remove keys. -/
theorem buildAcc_defining {l1 l2 : List ConfigLayer} {lab : String} {path : ScopePath}
    {dd : JSON} {acc : NameAcc} {ns : List String}
    (h : buildAcc [] (l1 ++ (lab, path, dd) :: l2) = .ok acc)
    (hns : definingNames dd = .ok ns) :
    ∀ n ∈ ns, dhas acc n = true := by
  rw [buildAcc_append] at h
  cases h1 : buildAcc [] l1 with
  | error e => rw [h1] at h; cases h
  | ok a1 =>
    rw [h1] at h
    simp only [buildAcc] at h
    cases h2 : accLayer a1 dd with
    | error e => rw [h2] at h; cases h
    | ok a2 =>
      rw [h2] at h
      simp only [accLayer] at h2
      simp only [definingNames] at hns
      cases hg : pyGetD dd "projects" (.arr []) with
      | error e => simp only [hg] at h2; cases h2
      | ok pv =>
        simp only [hg] at h2 hns
        cases hi : pyIter pv with
        | error e => simp only [hi] at h2; cases h2
        | ok items =>
          simp only [hi] at h2 hns
          intro n hm
          rcases accEntries_names h2 hns n hm with h3 | h3
          · cases h3
          · exact buildAcc_dhas_mono h h3

/-- C9: whenever the merge components succeed, every string name taken
from the defining layer's `projects` list is a key of the accumulator:
the skip branch for a missing name filters nothing, and the merger
completes without error on these inputs. -/
theorem claim_C9 (layers : List ConfigLayer) (dd : JSON) (acc : NameAcc) (ns : List String)
    (hfd : findDefining layers = .ok (some dd))
    (hacc : buildAcc [] layers.reverse = .ok acc)
    (hns : definingNames dd = .ok ns) :
    (∀ n ∈ ns, dhas acc n = true) ∧
    ns.filter (fun n => dhas acc n) = ns ∧
    mergeLayers layers =
      .ok (if (ns.map (fun n => JSON.obj ((dget acc n).getD []))).isEmpty then JSON.obj []
        else JSON.obj [("projects",
          JSON.arr (ns.map (fun n => JSON.obj ((dget acc n).getD []))))]) := by
  obtain ⟨lab2, path2, hmem⟩ := findDefining_some_mem hfd
  have hmemr : (lab2, path2, dd) ∈ layers.reverse := List.mem_reverse.mpr hmem
  obtain ⟨s, t, hst⟩ := List.append_of_mem hmemr
  have hall : ∀ n ∈ ns, dhas acc n = true := by
    rw [hst] at hacc
    exact buildAcc_defining hacc hns
  have hfilter : ns.filter (fun n => dhas acc n) = ns :=
    List.filter_eq_self.mpr (fun n hn => by simp [hall n hn])
  have hE : layers.isEmpty = false := by
    cases layers
    · simp [findDefining] at hfd
    · rfl
  refine ⟨hall, hfilter, ?_⟩
  simp only [mergeLayers, hE, Bool.false_eq_true, if_false, hfd, hacc, hns, hfilter]
  cases hI : (List.map (fun n => JSON.obj ((dget acc n).getD [])) ns).isEmpty <;> simp [hI]

/-- C9 witness: `claim_C9` applied to a concrete single-layer stack. -/
theorem claim_C9_witness :
    (∀ n ∈ ["a"], dhas [("a", [("name", JSON.str "a")])] n = true) ∧
    ["a"].filter (fun n => dhas [("a", [("name", JSON.str "a")])] n) = ["a"] ∧
    mergeLayers [("user", ScopePath.userPath,
        JSON.obj [("projects", JSON.arr [JSON.obj [("name", JSON.str "a")]])])] =
      .ok (if (["a"].map (fun n =>
            JSON.obj ((dget [("a", [("name", JSON.str "a")])] n).getD []))).isEmpty
        then JSON.obj []
        else JSON.obj [("projects", JSON.arr (["a"].map (fun n =>
          JSON.obj ((dget [("a", [("name", JSON.str "a")])] n).getD []))))]) :=
  claim_C9 [("user", ScopePath.userPath,
      JSON.obj [("projects", JSON.arr [JSON.obj [("name", JSON.str "a")]])])]
    (JSON.obj [("projects", JSON.arr [JSON.obj [("name", JSON.str "a")]])])
    [("a", [("name", JSON.str "a")])] ["a"] rfl rfl rfl

/-! ## C1: output membership and order follow the defining layer -/

theorem getD_null_str {o : Option JSON} {n : String}
    (h : o.getD JSON.null = JSON.str n) : o = some (JSON.str n) := by
  cases o with
  | none => simp only [Option.getD_none] at h; cases h
  | some v => simp only [Option.getD_some] at h; rw [h]

theorem getD_null_asObj {o : Option JSON} {e : List (String × JSON)}
    (h : asObj (o.getD JSON.null) = some e) : o = some (JSON.obj e) := by
  cases o with
  | none => simp [asObj] at h
  | some v =>
    simp only [Option.getD_some] at h
    cases v <;> simp_all [asObj]

theorem accInv_nil : accInv [] :=
  fun p hp => absurd hp (List.not_mem_nil p)

theorem accStep_inv {acc acc2 : NameAcc} {p : JSON}
    (hinv : accInv acc) (hwf : projEntryWF p = true)
    (h : accStep acc p = .ok acc2) : accInv acc2 := by
  cases p with
  | obj pkvs =>
    simp only [projEntryWF, Bool.and_eq_true] at hwf
    cases hn : (dget pkvs "name").getD .null with
    | str n =>
      simp only [accStep, hn] at h
      injection h with h2
      subst h2
      have hpname : dget pkvs "name" = some (JSON.str n) := getD_null_str hn
      have hexnodup : dnodup ((dget acc n).getD []) = true := by
        cases hga : dget acc n with
        | none => rfl
        | some ex =>
          simp only [Option.getD_some]
          exact (hinv _ (dget_some_mem hga)).1
      have hexenv : envWF ((dget acc n).getD []) = true := by
        cases hga : dget acc n with
        | none => rfl
        | some ex =>
          simp only [Option.getD_some]
          exact (hinv _ (dget_some_mem hga)).2.2
      have hnodup0 : dnodup (dunion ((dget acc n).getD []) pkvs) = true :=
        dnodup_dunion _ hexnodup
      have hname0 : dget (dunion ((dget acc n).getD []) pkvs) "name" = some (JSON.str n) :=
        dget_dunion_of_some hwf.1 hpname _
      have henv0 : envWF (dunion ((dget acc n).getD []) pkvs) = true := by
        cases hpe : dget pkvs "env" with
        | some v =>
          have hv := dget_dunion_of_some hwf.1 hpe ((dget acc n).getD [])
          simp only [envWF, hv]
          cases v with
          | obj e2 =>
            have h5 := hwf.2
            simp only [envWF, hpe] at h5
            exact h5
          | null => rfl
          | bool b => rfl
          | num m => rfl
          | str s => rfl
          | arr xs => rfl
        | none =>
          have hv := dget_dunion_of_none hpe ((dget acc n).getD [])
          simp only [envWF, hv]
          have h5 := hexenv
          simp only [envWF] at h5
          exact h5
      cases hE1 : asObj ((dget ((dget acc n).getD []) "env").getD JSON.null) with
      | none =>
        simp only [hE1]
        intro q hq
        rcases mem_dinsert hq with h3 | h3
        · rw [h3]
          exact ⟨hnodup0, hname0, henv0⟩
        · exact hinv q h3
      | some e1 =>
        cases hE2 : asObj ((dget pkvs "env").getD JSON.null) with
        | none =>
          simp only [hE1, hE2]
          intro q hq
          rcases mem_dinsert hq with h3 | h3
          · rw [h3]
            exact ⟨hnodup0, hname0, henv0⟩
          · exact hinv q h3
        | some e2 =>
          simp only [hE1, hE2]
          have he1get : dget ((dget acc n).getD []) "env" = some (JSON.obj e1) :=
            getD_null_asObj hE1
          have he1nodup : dnodup e1 = true := by
            have h5 := hexenv
            simp only [envWF, he1get] at h5
            exact h5
          intro q hq
          rcases mem_dinsert hq with h3 | h3
          · rw [h3]
            refine ⟨dnodup_dinsert _ _ hnodup0, ?_, ?_⟩
            · rw [dget_dinsert_ne _ _ _ _ (by decide)]
              exact hname0
            · simp only [envWF, dget_dinsert_self]
              exact dnodup_dunion _ he1nodup
          · exact hinv q h3
    | null =>
      simp only [accStep, hn] at h
      injection h with h2
      subst h2
      exact hinv
    | bool b =>
      simp only [accStep, hn] at h
      injection h with h2
      subst h2
      exact hinv
    | num m =>
      simp only [accStep, hn] at h
      injection h with h2
      subst h2
      exact hinv
    | arr xs =>
      simp only [accStep, hn] at h
      injection h with h2
      subst h2
      exact hinv
    | obj kvs2 =>
      simp only [accStep, hn] at h
      injection h with h2
      subst h2
      exact hinv
  | null => cases h
  | bool b => cases h
  | num n => cases h
  | str s => cases h
  | arr xs => cases h

theorem accEntries_inv {items : List JSON} {acc acc2 : NameAcc}
    (hinv : accInv acc) (hwf : ∀ p ∈ items, projEntryWF p = true)
    (h : accEntries acc items = .ok acc2) : accInv acc2 := by
  induction items generalizing acc with
  | nil =>
    simp only [accEntries] at h
    injection h with h2
    subst h2
    exact hinv
  | cons p ps ih =>
    simp only [accEntries] at h
    cases hs : accStep acc p with
    | error e => rw [hs] at h; cases h
    | ok acc1 =>
      rw [hs] at h
      exact ih (accStep_inv hinv (hwf p (List.mem_cons_self _ _)) hs)
        (fun q hq => hwf q (List.mem_cons_of_mem _ hq)) h

theorem accLayer_inv {data : JSON} {acc acc2 : NameAcc}
    (hinv : accInv acc) (hwf : dataWF data = true)
    (h : accLayer acc data = .ok acc2) : accInv acc2 := by
  simp only [accLayer] at h
  cases data with
  | obj kvs =>
    simp only [pyGetD] at h
    simp only [dataWF, Bool.and_eq_true] at hwf
    cases hp : dget kvs "projects" with
    | none =>
      simp only [hp, Option.getD_none, pyIter, accEntries] at h
      injection h with h2
      subst h2
      exact hinv
    | some v =>
      simp only [hp, Option.getD_some] at h
      have hwf2 : (match dget kvs "projects" with
          | some (JSON.arr ps) => ps.all projEntryWF
          | _ => true) = true := hwf.2
      rw [hp] at hwf2
      cases v with
      | arr ps =>
        simp only [pyIter] at h
        have hwf3 : ps.all projEntryWF = true := hwf2
        exact accEntries_inv hinv (fun p hp2 => List.all_eq_true.mp hwf3 p hp2) h
      | str s =>
        simp only [pyIter] at h
        cases hs : s.toList with
        | nil =>
          rw [hs] at h
          simp only [List.map_nil, accEntries] at h
          injection h with h2
          subst h2
          exact hinv
        | cons c cs =>
          rw [hs] at h
          simp only [List.map_cons, accEntries, accStep] at h
          cases h
      | obj kvs2 =>
        simp only [pyIter] at h
        cases kvs2 with
        | nil =>
          simp only [List.map_nil, accEntries] at h
          injection h with h2
          subst h2
          exact hinv
        | cons q qs =>
          simp only [List.map_cons, accEntries, accStep] at h
          cases h
      | null => simp only [pyIter] at h; cases h
      | bool b => simp only [pyIter] at h; cases h
      | num m => simp only [pyIter] at h; cases h
  | null => simp only [pyGetD] at h; cases h
  | bool b => simp only [pyGetD] at h; cases h
  | num n => simp only [pyGetD] at h; cases h
  | str s => simp only [pyGetD] at h; cases h
  | arr xs => simp only [pyGetD] at h; cases h

theorem buildAcc_inv {layers : List ConfigLayer} {acc0 acc : NameAcc}
    (hinv : accInv acc0) (hwf : ∀ l ∈ layers, dataWF l.2.2 = true)
    (h : buildAcc acc0 layers = .ok acc) : accInv acc := by
  induction layers generalizing acc0 with
  | nil =>
    simp only [buildAcc] at h
    injection h with h2
    subst h2
    exact hinv
  | cons l ls ih =>
    simp only [buildAcc] at h
    cases hs : accLayer acc0 l.2.2 with
    | error e => rw [hs] at h; cases h
    | ok acc1 =>
      rw [hs] at h
      exact ih (accLayer_inv hinv (hwf l (List.mem_cons_self _ _)) hs)
        (fun q hq => hwf q (List.mem_cons_of_mem _ hq)) h

theorem outNames_emit {acc : NameAcc} {ns : List String}
    (hinv : accInv acc) (hall : ∀ n ∈ ns, dhas acc n = true) :
    (ns.map (fun n => JSON.obj ((dget acc n).getD []))).filterMap strName = ns := by
  induction ns with
  | nil => rfl
  | cons n rest ih =>
    have h1 : dhas acc n = true := hall n (List.mem_cons_self _ _)
    obtain ⟨v, hv⟩ := dget_isSome_of_dhas h1
    have h2 := (hinv _ (dget_some_mem hv)).2.1
    simp only [List.map_cons, List.filterMap_cons, hv, Option.getD_some, strName, h2]
    rw [ih (fun q hq => hall q (List.mem_cons_of_mem _ hq))]

/-- C1 (amended): when the merge succeeds on layers shaped as
`json.loads` yields them, the output's project name sequence is exactly
the defining layer's sequence of string-valued names — including any
duplicates and empty strings it contains; the output names are unique
whenever that sequence is duplicate-free (which the code does not
enforce, see the counterexample); and a name absent from the defining
sequence never appears in the output, however rich its entries in lower
layers. -/
theorem claim_C1_amended (layers : List ConfigLayer) (out : JSON)
    (hwf : layers.all (fun l => dataWF l.2.2) = true)
    (hok : mergeLayers layers = .ok out) :
    (findDefining layers = .ok none → outNames out = []) ∧
    (∀ dd ns, findDefining layers = .ok (some dd) → definingNames dd = .ok ns →
      outNames out = ns ∧ (ns.Nodup → (outNames out).Nodup) ∧
      (∀ n, n ∉ ns → n ∉ outNames out)) := by
  have hwf2 : ∀ l ∈ layers, dataWF l.2.2 = true := List.all_eq_true.mp hwf
  cases hE : layers.isEmpty
  · simp only [mergeLayers, hE, Bool.false_eq_true, if_false] at hok
    cases hfd : findDefining layers with
    | error e => rw [hfd] at hok; cases hok
    | ok r =>
      rw [hfd] at hok
      cases r with
      | none =>
        injection hok with h2
        subst h2
        constructor
        · intro _
          rfl
        · intro dd ns hfd2 _
          injection hfd2 with h3
          cases h3
      | some dd0 =>
        simp only at hok
        cases hacc : buildAcc [] layers.reverse with
        | error e => simp only [hacc] at hok; cases hok
        | ok acc =>
          simp only [hacc] at hok
          cases hns : definingNames dd0 with
          | error e => simp only [hns] at hok; cases hok
          | ok ns0 =>
            simp only [hns] at hok
            obtain ⟨lab2, path2, hmem⟩ := findDefining_some_mem hfd
            have hmemr : (lab2, path2, dd0) ∈ layers.reverse := List.mem_reverse.mpr hmem
            obtain ⟨s, t, hst⟩ := List.append_of_mem hmemr
            have hall : ∀ n ∈ ns0, dhas acc n = true := by
              rw [hst] at hacc
              exact buildAcc_defining hacc hns
            have hinv : accInv acc :=
              buildAcc_inv accInv_nil
                (fun q hq => hwf2 q (List.mem_reverse.mp hq)) hacc
            have hfilter : ns0.filter (fun n => dhas acc n) = ns0 :=
              List.filter_eq_self.mpr (fun n hn => by simp [hall n hn])
            rw [hfilter] at hok
            have houtn : outNames out = ns0 := by
              cases hns0 : ns0 with
              | nil =>
                rw [hns0] at hok
                simp only [List.map_nil, List.isEmpty_nil, if_true] at hok
                injection hok with h2
                subst h2
                rfl
              | cons n1 nrest =>
                rw [hns0] at hok
                simp only [List.map_cons, List.isEmpty_cons, Bool.false_eq_true,
                  if_false] at hok
                injection hok with h2
                subst h2
                have hemit := outNames_emit hinv hall
                rw [hns0] at hemit
                simpa [outNames, dget] using hemit
            constructor
            · intro hfd2
              injection hfd2 with h3
              cases h3
            · intro dd ns hfd2 hns2
              injection hfd2 with h3
              injection h3 with h4
              subst h4
              rw [hns] at hns2
              injection hns2 with h5
              subst h5
              refine ⟨houtn, ?_, ?_⟩
              · intro hnd
                rw [houtn]
                exact hnd
              · intro n hn
                rw [houtn]
                exact hn
  · have hL : layers = [] := by
      cases layers
      · rfl
      · simp at hE
    subst hL
    simp only [mergeLayers, List.isEmpty_nil, if_true] at hok
    injection hok with h2
    subst h2
    constructor
    · intro _
      rfl
    · intro dd ns hfd2 _
      simp [findDefining] at hfd2

/-- C1 witness: `claim_C1_amended` on a two-layer stack where the
project-local layer defines only "a" and the user layer contributes a
project "b" that is excluded from the output. -/
theorem claim_C1_witness :
    (findDefining [("project-local", ScopePath.projectLocalPath,
        JSON.obj [("projects", JSON.arr [JSON.obj [("name", JSON.str "a")]])]),
      ("user", ScopePath.userPath,
        JSON.obj [("projects", JSON.arr [JSON.obj [("name", JSON.str "b")]])])] = .ok none →
      outNames (JSON.obj [("projects", JSON.arr [JSON.obj [("name", JSON.str "a")]])]) = []) ∧
    (∀ dd ns, findDefining [("project-local", ScopePath.projectLocalPath,
        JSON.obj [("projects", JSON.arr [JSON.obj [("name", JSON.str "a")]])]),
      ("user", ScopePath.userPath,
        JSON.obj [("projects", JSON.arr [JSON.obj [("name", JSON.str "b")]])])] =
          .ok (some dd) →
      definingNames dd = .ok ns →
      outNames (JSON.obj [("projects", JSON.arr [JSON.obj [("name", JSON.str "a")]])]) = ns ∧
      (ns.Nodup →
        (outNames (JSON.obj [("projects",
          JSON.arr [JSON.obj [("name", JSON.str "a")]])])).Nodup) ∧
      (∀ n, n ∉ ns →
        n ∉ outNames (JSON.obj [("projects",
          JSON.arr [JSON.obj [("name", JSON.str "a")]])]))) :=
  claim_C1_amended
    [("project-local", ScopePath.projectLocalPath,
        JSON.obj [("projects", JSON.arr [JSON.obj [("name", JSON.str "a")]])]),
     ("user", ScopePath.userPath,
        JSON.obj [("projects", JSON.arr [JSON.obj [("name", JSON.str "b")]])])]
    (JSON.obj [("projects", JSON.arr [JSON.obj [("name", JSON.str "a")]])]) rfl rfl

/-! ## C6: merging is idempotent -/

theorem map_congr_mem {α β : Type} {l : List α} {f g : α → β}
    (h : ∀ a ∈ l, f a = g a) : l.map f = l.map g := by
  induction l with
  | nil => rfl
  | cons a as ih =>
    simp only [List.map_cons, h a (List.mem_cons_self _ _),
      ih (fun b hb => h b (List.mem_cons_of_mem _ hb))]

theorem dget_acc_A {acc : NameAcc} {n : String} (hinv : accInv acc)
    (h : dhas acc n = true) :
    dnodup ((dget acc n).getD []) = true ∧
    dget ((dget acc n).getD []) "name" = some (JSON.str n) ∧
    envWF ((dget acc n).getD []) = true := by
  obtain ⟨v, hv⟩ := dget_isSome_of_dhas h
  have h3 := hinv _ (dget_some_mem hv)
  rw [hv]
  simpa using h3

theorem accEntries_emit {acc : NameAcc} (ns : List String) (st : NameAcc)
    (hinv : accInv acc) (hall : ∀ n ∈ ns, dhas acc n = true)
    (hstnodup : dnodup st = true)
    (hstsub : ∀ n v, dget st n = some v → dget acc n = some v) :
    ∃ st2, accEntries st (ns.map (fun n => JSON.obj ((dget acc n).getD []))) = .ok st2 ∧
      dnodup st2 = true ∧
      (∀ n v, dget st2 n = some v → dget acc n = some v) ∧
      (∀ n ∈ ns, dhas st2 n = true) := by
  induction ns generalizing st with
  | nil => exact ⟨st, rfl, hstnodup, hstsub, fun n hn => absurd hn (List.not_mem_nil n)⟩
  | cons n rest ih =>
    have hn : dhas acc n = true := hall n (List.mem_cons_self _ _)
    obtain ⟨hAnodup, hAname, hAenv⟩ := dget_acc_A hinv hn
    obtain ⟨v0, hv0⟩ := dget_isSome_of_dhas hn
    have hA : (dget acc n).getD [] = v0 := by rw [hv0]; rfl
    rw [hA] at hAnodup hAname hAenv
    have hname' : (dget v0 "name").getD JSON.null = JSON.str n := by rw [hAname]; rfl
    have hstep : accStep st (JSON.obj v0) = .ok (dinsert st n v0) := by
      cases hst : dget st n with
      | none =>
        simp only [accStep, hname', hst, Option.getD_none]
        simp only [dget, Option.getD_none, asObj]
        rw [dunion_nil_left hAnodup]
      | some ex =>
        have hexv : ex = v0 := by
          have h4 := hstsub n ex hst
          rw [hv0] at h4
          injection h4 with h5
          exact h5.symm
        rw [hexv] at hst
        simp only [accStep, hname', hst, Option.getD_some]
        rw [dunion_self hAnodup]
        cases he : dget v0 "env" with
        | none => simp only [he, Option.getD_none, asObj]
        | some w =>
          cases w with
          | obj e =>
            have henodup : dnodup e = true := by
              have h6 := hAenv
              simp only [envWF, he] at h6
              exact h6
            simp only [he, Option.getD_some, asObj]
            rw [dunion_self henodup, dinsert_eq_self hAnodup he]
          | null => simp only [he, Option.getD_some, asObj]
          | bool b => simp only [he, Option.getD_some, asObj]
          | num m => simp only [he, Option.getD_some, asObj]
          | str s => simp only [he, Option.getD_some, asObj]
          | arr xs => simp only [he, Option.getD_some, asObj]
    have hsub2 : ∀ m v, dget (dinsert st n v0) m = some v → dget acc m = some v := by
      intro m v hm
      by_cases hmn : m = n
      · subst hmn
        rw [dget_dinsert_self] at hm
        injection hm with h5
        rw [← h5]
        exact hv0
      · rw [dget_dinsert_ne _ _ _ _ (fun hh => hmn hh.symm)] at hm
        exact hstsub m v hm
    obtain ⟨st2, h1, h2, h3, h4⟩ := ih (dinsert st n v0)
      (fun q hq => hall q (List.mem_cons_of_mem _ hq)) (dnodup_dinsert _ _ hstnodup) hsub2
    refine ⟨st2, ?_, h2, h3, ?_⟩
    · rw [List.map_cons, hA]
      simp only [accEntries, hstep]
      exact h1
    · intro q hq
      rcases List.mem_cons.mp hq with hq1 | hq1
      · subst hq1
        refine accEntries_dhas_mono h1 ?_
        rw [dhas_dinsert]
        simp
      · exact h4 q hq1

theorem nameEntries_emit {acc : NameAcc} (ns : List String) (ns0 : List String)
    (hinv : accInv acc) (hall : ∀ n ∈ ns, dhas acc n = true) :
    nameEntries ns0 (ns.map (fun n => JSON.obj ((dget acc n).getD []))) = .ok (ns0 ++ ns) := by
  induction ns generalizing ns0 with
  | nil => simp [nameEntries]
  | cons n rest ih =>
    have hn : dhas acc n = true := hall n (List.mem_cons_self _ _)
    obtain ⟨hAnodup, hAname, hAenv⟩ := dget_acc_A hinv hn
    have hname' : (dget ((dget acc n).getD []) "name").getD JSON.null = JSON.str n := by
      rw [hAname]; rfl
    simp only [List.map_cons, nameEntries, nameStep, hname']
    rw [ih (ns0 ++ [n]) (fun q hq => hall q (List.mem_cons_of_mem _ hq))]
    simp

theorem emit_eq {acc acc2 : NameAcc} {ns : List String}
    (hsub : ∀ n v, dget acc2 n = some v → dget acc n = some v)
    (hhas : ∀ n ∈ ns, dhas acc2 n = true) :
    (ns.filter (fun n => dhas acc2 n)).map (fun n => JSON.obj ((dget acc2 n).getD [])) =
      ns.map (fun n => JSON.obj ((dget acc n).getD [])) := by
  rw [List.filter_eq_self.mpr (fun n hn => by simp [hhas n hn])]
  apply map_congr_mem
  intro n hn
  obtain ⟨v, hv⟩ := dget_isSome_of_dhas (hhas n hn)
  rw [hv, hsub n v hv]

theorem mergeLayers_ok_shape {layers : List ConfigLayer} {out : JSON}
    (hwf : layers.all (fun l => dataWF l.2.2) = true)
    (hok : mergeLayers layers = .ok out) :
    out = JSON.obj [] ∨ ∃ acc ns, accInv acc ∧ (∀ n ∈ ns, dhas acc n = true) ∧ ns ≠ [] ∧
      out = JSON.obj [("projects",
        JSON.arr (ns.map (fun n => JSON.obj ((dget acc n).getD []))))] := by
  have hwf2 : ∀ l ∈ layers, dataWF l.2.2 = true := List.all_eq_true.mp hwf
  cases hE : layers.isEmpty
  · simp only [mergeLayers, hE, Bool.false_eq_true, if_false] at hok
    cases hfd : findDefining layers with
    | error e => rw [hfd] at hok; cases hok
    | ok r =>
      rw [hfd] at hok
      cases r with
      | none =>
        injection hok with h2
        exact Or.inl h2.symm
      | some dd0 =>
        simp only at hok
        cases hacc : buildAcc [] layers.reverse with
        | error e => simp only [hacc] at hok; cases hok
        | ok acc =>
          simp only [hacc] at hok
          cases hns : definingNames dd0 with
          | error e => simp only [hns] at hok; cases hok
          | ok ns0 =>
            simp only [hns] at hok
            obtain ⟨lab2, path2, hmem⟩ := findDefining_some_mem hfd
            have hmemr : (lab2, path2, dd0) ∈ layers.reverse := List.mem_reverse.mpr hmem
            obtain ⟨s, t, hst⟩ := List.append_of_mem hmemr
            have hall : ∀ n ∈ ns0, dhas acc n = true := by
              rw [hst] at hacc
              exact buildAcc_defining hacc hns
            have hinv : accInv acc :=
              buildAcc_inv accInv_nil (fun q hq => hwf2 q (List.mem_reverse.mp hq)) hacc
            have hfilter : ns0.filter (fun n => dhas acc n) = ns0 :=
              List.filter_eq_self.mpr (fun n hn => by simp [hall n hn])
            rw [hfilter] at hok
            cases hns0 : ns0 with
            | nil =>
              rw [hns0] at hok
              simp only [List.map_nil, List.isEmpty_nil, if_true] at hok
              injection hok with h2
              exact Or.inl h2.symm
            | cons n1 nrest =>
              rw [hns0] at hok
              simp only [List.map_cons, List.isEmpty_cons, Bool.false_eq_true,
                if_false] at hok
              injection hok with h2
              refine Or.inr ⟨acc, n1 :: nrest, hinv, hns0 ▸ hall, by simp, ?_⟩
              rw [← h2]
              simp [List.map_cons]
  · have hL : layers = [] := by
      cases layers
      · rfl
      · simp at hE
    subst hL
    simp only [mergeLayers, List.isEmpty_nil, if_true] at hok
    injection hok with h2
    exact Or.inl h2.symm

theorem findDefining_projects (lab : String) (path : ScopePath) (ps : List JSON)
    (rest : List ConfigLayer) :
    findDefining ((lab, path, JSON.obj [("projects", JSON.arr ps)]) :: rest) =
      .ok (some (JSON.obj [("projects", JSON.arr ps)])) := rfl

theorem accLayer_projects (st st2 : NameAcc) (ps : List JSON)
    (h : accEntries st ps = .ok st2) :
    accLayer st (JSON.obj [("projects", JSON.arr ps)]) = .ok st2 := h

theorem definingNames_projects (ps : List JSON) (ns2 : List String)
    (h : nameEntries [] ps = .ok ns2) :
    definingNames (JSON.obj [("projects", JSON.arr ps)]) = .ok ns2 := h

theorem buildAcc_one (st : NameAcc) (lab : String) (path : ScopePath) (data : JSON) :
    buildAcc st [(lab, path, data)] = (match accLayer st data with
      | .ok a => .ok a
      | .error e => .error e) := by
  cases h : accLayer st data with
  | ok a => simp [buildAcc, h]
  | error e => simp [buildAcc, h]

theorem buildAcc_two (st : NameAcc) (lab1 lab2 : String) (path1 path2 : ScopePath)
    (data1 data2 : JSON) :
    buildAcc st [(lab1, path1, data1), (lab2, path2, data2)] =
      (match accLayer st data1 with
        | .ok a => (match accLayer a data2 with
            | .ok b => .ok b
            | .error e => .error e)
        | .error e => .error e) := by
  cases h : accLayer st data1 with
  | ok a =>
    cases h2 : accLayer a data2 with
    | ok b => simp [buildAcc, h, h2]
    | error e => simp [buildAcc, h, h2]
  | error e => simp [buildAcc, h]

theorem remerge_lemma {acc : NameAcc} {ns : List String} {out : JSON}
    (hinv : accInv acc) (hall : ∀ n ∈ ns, dhas acc n = true) (hne : ns ≠ [])
    (hout : out = JSON.obj [("projects",
      JSON.arr (ns.map (fun n => JSON.obj ((dget acc n).getD []))))])
    (lab lab2 : String) (path path2 : ScopePath) :
    mergeLayers [(lab, path, out)] = .ok out ∧
    mergeLayers [(lab, path, out), (lab2, path2, out)] = .ok out := by
  obtain ⟨acc1, hE1, hE2, hE3, hE4⟩ := accEntries_emit ns [] hinv hall rfl
    (fun n v h => by simp [dget] at h)
  obtain ⟨acc2, hF1, hF2, hF3, hF4⟩ := accEntries_emit ns acc1 hinv hall hE2 hE3
  have hemit1 := emit_eq hE3 hE4
  have hemit2 := emit_eq hF3 hF4
  have hnames := definingNames_projects _ _
    (nameEntries_emit ns [] hinv hall)
  rw [List.nil_append] at hnames
  subst hout
  constructor
  · have h1 : buildAcc []
        ([(lab, path, JSON.obj [("projects",
          JSON.arr (ns.map (fun n => JSON.obj ((dget acc n).getD []))))])].reverse) =
        .ok acc1 := by
      have hr : [(lab, path, JSON.obj [("projects",
          JSON.arr (ns.map (fun n => JSON.obj ((dget acc n).getD []))))])].reverse =
          [(lab, path, JSON.obj [("projects",
            JSON.arr (ns.map (fun n => JSON.obj ((dget acc n).getD []))))])] := by
        simp
      rw [hr, buildAcc_one, accLayer_projects _ _ _ hE1]
    simp only [mergeLayers, List.isEmpty_cons, Bool.false_eq_true, if_false,
      findDefining_projects, h1, hnames]
    rw [hemit1]
    cases hns : ns with
    | nil => exact absurd hns hne
    | cons a b => simp
  · have h2 : buildAcc []
        ([(lab, path, JSON.obj [("projects",
            JSON.arr (ns.map (fun n => JSON.obj ((dget acc n).getD []))))]),
          (lab2, path2, JSON.obj [("projects",
            JSON.arr (ns.map (fun n => JSON.obj ((dget acc n).getD []))))])].reverse) =
        .ok acc2 := by
      have hr : [(lab, path, JSON.obj [("projects",
            JSON.arr (ns.map (fun n => JSON.obj ((dget acc n).getD []))))]),
          (lab2, path2, JSON.obj [("projects",
            JSON.arr (ns.map (fun n => JSON.obj ((dget acc n).getD []))))])].reverse =
          [(lab2, path2, JSON.obj [("projects",
            JSON.arr (ns.map (fun n => JSON.obj ((dget acc n).getD []))))]),
           (lab, path, JSON.obj [("projects",
            JSON.arr (ns.map (fun n => JSON.obj ((dget acc n).getD []))))])] := by
        simp
      rw [hr, buildAcc_two, accLayer_projects _ _ _ hE1]
      show (match accLayer acc1 (JSON.obj [("projects",
          JSON.arr (ns.map (fun n => JSON.obj ((dget acc n).getD []))))]) with
        | .ok b => (.ok b : Except PyErr NameAcc)
        | .error e => .error e) = .ok acc2
      rw [accLayer_projects _ _ _ hF1]
    simp only [mergeLayers, List.isEmpty_cons, Bool.false_eq_true, if_false,
      findDefining_projects, h2, hnames]
    rw [hemit2]
    cases hns : ns with
    | nil => exact absurd hns hne
    | cons a b => simp

/-- C6: merging is idempotent — taking a successful merge's output,
treating it as a single highest-precedence layer, and merging it alone or
together with a second copy of itself yields the same output again. -/
theorem claim_C6 (layers : List ConfigLayer) (out : JSON) (lab lab2 : String)
    (path path2 : ScopePath)
    (hwf : layers.all (fun l => dataWF l.2.2) = true)
    (hok : mergeLayers layers = .ok out) :
    mergeLayers [(lab, path, out)] = .ok out ∧
    mergeLayers [(lab, path, out), (lab2, path2, out)] = .ok out := by
  rcases mergeLayers_ok_shape hwf hok with hempty | ⟨acc, ns, hinv, hall, hne, hout⟩
  · subst hempty
    exact ⟨rfl, rfl⟩
  · exact remerge_lemma hinv hall hne hout lab lab2 path path2

/-- C6 witness: `claim_C6` applied to a one-layer stack; the merged
output re-merges to itself both alone and with a second copy. -/
theorem claim_C6_witness :
    mergeLayers [("project-local", ScopePath.projectLocalPath,
        JSON.obj [("projects", JSON.arr [JSON.obj [("name", JSON.str "a")]])])] =
      .ok (JSON.obj [("projects", JSON.arr [JSON.obj [("name", JSON.str "a")]])]) ∧
    mergeLayers [("project-local", ScopePath.projectLocalPath,
        JSON.obj [("projects", JSON.arr [JSON.obj [("name", JSON.str "a")]])]),
      ("user", ScopePath.userPath,
        JSON.obj [("projects", JSON.arr [JSON.obj [("name", JSON.str "a")]])])] =
      .ok (JSON.obj [("projects", JSON.arr [JSON.obj [("name", JSON.str "a")]])]) :=
  claim_C6 [("user", ScopePath.userPath,
      JSON.obj [("projects", JSON.arr [JSON.obj [("name", JSON.str "a")]])])]
    (JSON.obj [("projects", JSON.arr [JSON.obj [("name", JSON.str "a")]])])
    "project-local" "user" ScopePath.projectLocalPath ScopePath.userPath rfl rfl
